import Mathlib

/-!
Verification development for the OneDrive ACL scanner
(`src/acl_scanner.py` of SmartLayer/OneDriveGuard).

We shallowly embed the permission classifier (`analyze_permissions`), the
recursive tree scanner (`scan_shared_folders_recursive` with its inner
`check_folder_recursive`) and the post-pass grantee filter
(`filter_folders_by_user`).

Modelling conventions:
* JSON dict fields are `Option`-typed; `none` stands for an absent *or
  Python-falsy* value (the source tests dict fields with truthiness, e.g.
  `if granted_to and granted_to.get('user')`, under which an absent key,
  `None`, and an empty dict coincide).
* The remote Graph API is a pure snapshot (`RemoteDrive`): each request is a
  function from the item id (or path) to a `FetchResult`; `httpError` stands
  for a non-200 status code returned by `requests.get` and `netError` for a
  raised exception (timeout / transport failure), which the source catches
  with `except Exception`.
* The recursion of `check_folder_recursive` is structural on the remaining
  depth budget `fuel = max_depth - current_depth`: the source returns
  immediately when `current_depth >= max_depth`, i.e. when the budget is 0,
  and recurses into children with budget one less.
* The diagnostics-only `folders_per_level` counters and the console prints
  are not modelled, except that the "empty shared_users" defect print is
  recorded in an `errors` log (it is the only print the spec treats as a
  signal).
-/

namespace ACLScanner

/-- A `user` object inside `grantedTo` / `grantedToIdentities`:
only its `email` and `displayName` keys are consulted by the source. -/
structure UserInfo where
  email : Option String
  displayName : Option String
  deriving DecidableEq, Repr

/-- An identity wrapper (the dicts in `grantedTo` and `grantedToIdentities`);
the source only looks at the `user` key, via truthiness. -/
structure IdentityInfo where
  user : Option UserInfo
  deriving DecidableEq, Repr

/-- The `link` facet of a permission; the source tests
`link and link.get('type')`, so only the (possibly falsy) `type` matters. -/
structure LinkInfo where
  type : Option String
  deriving DecidableEq, Repr

/-- One raw permission entry as consumed by the source. -/
structure Perm where
  roles : List String
  link : Option LinkInfo
  grantedTo : Option IdentityInfo
  grantedToIdentities : List IdentityInfo
  inheritedFrom : Option String
  deriving DecidableEq, Repr

/-- Python truthiness of an optional string (`None` and `""` are falsy). -/
def truthyStr : Option String → Bool
  | none => false
  | some s => s ≠ ""

/-- Computes `user.get('email', user.get('displayName', 'Unknown'))`
(line 77 / 87 of the source). -/
def displayIdentity (u : UserInfo) : String :=
  u.email.getD (u.displayName.getD "Unknown")

/-- Implements `if email not in shared_users: shared_users.append(email)`
(lines 78–79 / 88–89). -/
def addUser (shared : List String) (e : String) : List String :=
  if e ∈ shared then shared else shared ++ [e]

/-- The loop body of `analyze_permissions` (lines 61–89), acting on the
running state `(has_link_sharing, has_direct_sharing, shared_users)`. -/
def analyzeStep (st : Bool × Bool × List String) (perm : Perm) :
    Bool × Bool × List String :=
  if "owner" ∈ perm.roles then st
  else
    let hl := st.1 || (match perm.link with
      | some l => truthyStr l.type
      | none => false)
    let (hd, su) :=
      match perm.grantedTo with
      | some gt =>
        match gt.user with
        | some u => (true, addUser st.2.2 (displayIdentity u))
        | none => (st.2.1, st.2.2)
      | none => (st.2.1, st.2.2)
    let (hd, su) := perm.grantedToIdentities.foldl
      (fun (acc : Bool × List String) identity =>
        match identity.user with
        | some u => (true, addUser acc.2 (displayIdentity u))
        | none => acc)
      (hd, su)
    (hl, hd, su)

/-- Embeds `analyze_permissions` (lines 49–91): returns
`(has_link_sharing, has_direct_sharing, permission_count, shared_users)`. -/
def analyze_permissions (permissions : List Perm) :
    Bool × Bool × Nat × List String :=
  let (hl, hd, su) := permissions.foldl analyzeStep (false, false, [])
  (hl, hd, permissions.length, su)

/-- Boolean substring test on `List Char`: does the second list start with
the first? -/
def leadsWith : List Char → List Char → Bool
  | [], _ => true
  | _ :: _, [] => false
  | a :: as, b :: bs => a == b && leadsWith as bs

/-- Boolean test: does `needle` occur as a contiguous run inside `hay`? -/
def hasRun (needle : List Char) : List Char → Bool
  | [] => needle.isEmpty
  | b :: bs => leadsWith needle (b :: bs) || hasRun needle bs

/-- Python's `needle in hay` substring containment on strings. -/
def strContains (hay needle : String) : Bool :=
  hasRun needle.data hay.data

/-- Python `str.lower()` (character-wise lowercasing). -/
def strLower (s : String) : String :=
  String.mk (s.data.map Char.toLower)

/-- Computes `user.get('email', '').lower()` followed by
`target_user_lower in user_email` (lines 192–193 etc.); `target` is the
already-lowercased target user. -/
def userEmailMatch (target : String) (u : UserInfo) : Bool :=
  strContains (strLower (u.email.getD "")) target

/-- One iteration of the explicit-permission check that
`check_folder_recursive` (lines 176–208) and `filter_folders_by_user`
(lines 381–413) both perform on a single entry: the entry must not carry
the `owner` role, must not be inherited, and must grant to a user (via
`grantedTo` or `grantedToIdentities`) whose e-mail contains the target. -/
def permExplicitMatch (target : String) (perm : Perm) : Bool :=
  if "owner" ∈ perm.roles then false
  else if perm.inheritedFrom.isSome then false
  else
    (match perm.grantedTo with
      | some gt =>
        match gt.user with
        | some u => userEmailMatch target u
        | none => false
      | none => false)
    || perm.grantedToIdentities.any (fun identity =>
        match identity.user with
        | some u => userEmailMatch target u
        | none => false)

/-- The flag `has_explicit_user_permission` computed over the whole permission list
(the loops break on the first hit, which is `List.any`). -/
def hasExplicitUserPermission (target : String) (permissions : List Perm) :
    Bool :=
  permissions.any (permExplicitMatch target)

/-- Outcome of one `requests.get`: a 200 response with a parsed payload, a
non-200 status, or a raised exception (timeout / transport failure). -/
inductive FetchResult (α : Type) where
  | ok : α → FetchResult α
  | httpError : FetchResult α
  | netError : FetchResult α
  deriving DecidableEq, Repr

/-- One entry of a `/children` listing; `isFolder` is `'folder' in child`. -/
structure ChildItem where
  id : String
  name : String
  isFolder : Bool
  deriving DecidableEq, Repr

/-- A point-in-time snapshot of the remote Graph API, one field per request
shape the scanner issues. `itemPath` models `get_item_path`, which catches
all of its own exceptions and falls back to `'Unknown'`, hence is total. -/
structure RemoteDrive where
  perms : String → FetchResult (List Perm)
  children : String → FetchResult (List ChildItem)
  info : String → FetchResult String
  itemPath : String → String
  resolvePath : String → FetchResult String
  rootId : FetchResult String

/-- One dict appended to `shared_folders` (lines 258–268). -/
structure ScanResult where
  path : String
  name : String
  id : String
  symbol : String
  share_type : String
  has_link_sharing : Bool
  has_direct_sharing : Bool
  permission_count : Nat
  shared_users : List String
  deriving DecidableEq, Repr

/-- The remote calls we keep in the log: permission fetches and
child listings (the metadata / path lookups are modelled by `drive.info`
and `drive.resolvePath` but not logged). -/
inductive ApiCall where
  | permCall : String → ApiCall
  | childrenCall : String → ApiCall
  deriving DecidableEq, Repr

/-- The mutable state captured by `check_folder_recursive`:
the accumulated results, the visited set (as the list of ids in insertion
order), the call log, and the log of "empty shared_users" defect reports. -/
structure ScanState where
  shared_folders : List ScanResult
  checked_folders : List String
  calls : List ApiCall
  errors : List String
  deriving DecidableEq, Repr

/-- Implements `f"{folder_path}/{child_name}" if folder_path else child_name`
(line 292). -/
def childPath (fpath name : String) : String :=
  if fpath == "" then name else fpath ++ "/" ++ name

/-- The flag `has_explicit_user_permission` as computed by the scanner: it stays
`False` when no target user is set (lines 174–208). -/
def targetExplicit (target : Option String) (permissions : List Perm) : Bool :=
  match target with
  | some t => hasExplicitUserPermission t permissions
  | none => false

/-- The consistent-id lookup (lines 245–256): re-resolve the folder path and
take the returned id; on a non-200 response or an exception fall back to the
original folder id. -/
def consistentId (drive : RemoteDrive) (p fid : String) : String :=
  match drive.resolvePath p with
  | FetchResult.ok i => i
  | _ => fid

/-- Embeds `should_include_folder` (lines 210–217): with a target user, include on
an explicit match; without one, include any shared folder. -/
def shouldIncludeFolder (target : Option String) (permissions : List Perm) :
    Bool :=
  match target with
  | some _ => targetExplicit target permissions
  | none =>
    (analyze_permissions permissions).1 || (analyze_permissions permissions).2.1

/-- The body of `check_folder_recursive` from the permissions fetch (line
163) up to just before the children fetch (line 281). Returns the updated
state together with `true` when control reaches the children fetch:
`false` means either the pruning `return` (line 278) was taken or an
exception aborted the `try` block (permission fetch or folder-info fetch
raising). A non-200 permission response skips classification but still
falls through to the children fetch. -/
def nodeAfterPerms (drive : RemoteDrive) (target : Option String)
    (fid fpath : String) (st : ScanState) : ScanState × Bool :=
  match drive.perms fid with
  | FetchResult.netError => (st, false)
  | FetchResult.httpError => (st, true)
  | FetchResult.ok permissions =>
    let a := analyze_permissions permissions
    let has_link := a.1
    let has_direct := a.2.1
    let perm_count := a.2.2.1
    let shared_users := a.2.2.2
    let has_explicit := targetExplicit target permissions
    let should_include := shouldIncludeFolder target permissions
    let prune := target.isSome && has_explicit
    if should_include then
      if shared_users.isEmpty then
        ({ st with errors :=
            st.errors ++ [if fpath == "" then fid else fpath] }, !prune)
      else
        let fpath2 := if fpath == "" then drive.itemPath fid else fpath
        match drive.info fid with
        | FetchResult.netError => (st, false)
        | infoRes =>
          let folder_name := match infoRes with
            | FetchResult.ok nm => nm
            | _ => "Unknown"
          let cid := if fpath2 == "" then fid else consistentId drive fpath2 fid
          let result : ScanResult :=
            { path := fpath2
              name := folder_name
              id := cid
              symbol := if has_link then "🔗" else "👥"
              share_type := if has_link then "Link sharing"
                            else "Direct permissions"
              has_link_sharing := has_link
              has_direct_sharing := has_direct
              permission_count := perm_count
              shared_users := shared_users }
          ({ st with shared_folders := st.shared_folders ++ [result] },
            !prune)
    else (st, !prune)

/-- The child loop (lines 288–295): visit each folder child in order,
threading the state. `visit` is the recursive call one level deeper. -/
def goChildren (visit : String → String → ScanState → ScanState)
    (fpath : String) : List ChildItem → ScanState → ScanState
  | [], st => st
  | c :: rest, st =>
    let st := if c.isFolder then visit c.id (childPath fpath c.name) st else st
    goChildren visit fpath rest st

/-- Embeds `check_folder_recursive` (lines 149–299), structurally recursive on the
remaining depth budget `fuel = max_depth - current_depth`; the guard
`current_depth >= max_depth` is the `fuel = 0` case. -/
def checkFolderRec (drive : RemoteDrive) (target : Option String) :
    Nat → String → String → ScanState → ScanState
  | 0, _, _, st => st
  | fuel + 1, fid, fpath, st =>
    if fid ∈ st.checked_folders then st
    else
      let st1 := { st with
        checked_folders := st.checked_folders ++ [fid]
        calls := st.calls ++ [ApiCall.permCall fid] }
      match nodeAfterPerms drive target fid fpath st1 with
      | (st2, false) => st2
      | (st2, true) =>
        let st3 := { st2 with calls := st2.calls ++ [ApiCall.childrenCall fid] }
        match drive.children fid with
        | FetchResult.ok children =>
          goChildren (fun cid cpath s => checkFolderRec drive target fuel cid cpath s)
            fpath children st3
        | _ => st3
termination_by structural fuel _ _ _ => fuel

/-- The empty starting state of one scan invocation. -/
def initScanState : ScanState :=
  { shared_folders := [], checked_folders := [], calls := [], errors := [] }

/-- Embeds `scan_shared_folders_recursive` (lines 128–343): lowercases the target
(a falsy, i.e. empty, `only_user` disables filtering), resolves the start
node (the given subdirectory, else the drive root) and runs the recursion
from depth 0. A failed start-node lookup returns the empty state. -/
def scan_shared_folders_recursive (drive : RemoteDrive) (max_depth : Nat)
    (target_dir : Option String) (only_user : Option String) : ScanState :=
  let target := match only_user with
    | some u => if u == "" then none else some (strLower u)
    | none => none
  match target_dir with
  | some td =>
    match drive.resolvePath td with
    | FetchResult.ok tid => checkFolderRec drive target max_depth tid td initScanState
    | _ => initScanState
  | none =>
    match drive.rootId with
    | FetchResult.ok rid => checkFolderRec drive target max_depth rid "" initScanState
    | _ => initScanState

/-- Embeds `filter_folders_by_user` (lines 345–427): keep a candidate exactly when
re-fetching its permission list succeeds and some entry passes the same
explicit-match test as the scanner; a non-200 response or an exception
skips the candidate. -/
def filter_folders_by_user (drive : RemoteDrive)
    (shared_folders : List ScanResult) (target_user : String) :
    List ScanResult :=
  let target := strLower target_user
  shared_folders.filter (fun folder =>
    match drive.perms folder.id with
    | FetchResult.ok permissions => hasExplicitUserPermission target permissions
    | _ => false)

/-! ### Derived views of the classifier, used to state its properties -/

/-- The grantee display identities one entry feeds into `shared_users`, in
the order the source consults them: nothing for an owner entry, else the
`grantedTo` user (if any) followed by the users of `grantedToIdentities`. -/
def entryIdentities (p : Perm) : List String :=
  if "owner" ∈ p.roles then []
  else
    (match p.grantedTo with
      | some gt =>
        match gt.user with
        | some u => [displayIdentity u]
        | none => []
      | none => []) ++
    p.grantedToIdentities.filterMap (fun i => i.user.map displayIdentity)

/-- All grantee display identities of a permission list, in consultation
order and with duplicates kept. -/
def granteeIdentities : List Perm → List String
  | [] => []
  | p :: ps => entryIdentities p ++ granteeIdentities ps

/-- First-seen-order deduplication, carrying the set of already-seen
elements. -/
def firstSeenDedupAux (seen : List String) : List String → List String
  | [] => []
  | x :: xs =>
    if x ∈ seen then firstSeenDedupAux seen xs
    else x :: firstSeenDedupAux (seen ++ [x]) xs

/-- Drop repeated elements, keeping the first occurrence of each. -/
def firstSeenDedup (l : List String) : List String :=
  firstSeenDedupAux [] l

/-- Modelled from the spec (claim C5's wording): an entry matches the target
when it is non-owner, explicit, and carries a grantee whose *display
identity* (email if present, else display name, else "Unknown") contains the
target as a case-insensitive substring. The source instead matches on the
e-mail field alone; this definition exists to compare the two. -/
def specGranteeDisplayMatch (target : String) (perm : Perm) : Bool :=
  if "owner" ∈ perm.roles then false
  else if perm.inheritedFrom.isSome then false
  else
    (match perm.grantedTo with
      | some gt =>
        match gt.user with
        | some u => strContains (strLower (displayIdentity u)) (strLower target)
        | none => false
      | none => false)
    || perm.grantedToIdentities.any (fun identity =>
        match identity.user with
        | some u => strContains (strLower (displayIdentity u)) (strLower target)
        | none => false)

/-- The ids whose permission lists were fetched, in fetch order. -/
def permCallIds (calls : List ApiCall) : List String :=
  calls.filterMap (fun c =>
    match c with
    | ApiCall.permCall i => some i
    | _ => none)

/-- The folder ids of a result sequence, in order. -/
def resultIds (l : List ScanResult) : List String :=
  l.map (fun r => r.id)

/-- The state invariant the scanner maintains: every recorded result has a
non-empty `shared_users`, no folder id is marked visited twice, and the
permission fetches issued are exactly the visited ids, in order. -/
def ScanInv (st : ScanState) : Prop :=
  (∀ r ∈ st.shared_folders, r.shared_users ≠ []) ∧
  st.checked_folders.Nodup ∧
  permCallIds st.calls = st.checked_folders

/-! ### Finite folder-tree snapshots

To compare the prune-while-walking and collect-then-filter strategies we
describe the scanned region of a drive as a finite rose tree (mutually with
its child lists, keeping every recursion structural): each node carries its
id, its name, its own permission list and its subfolders. -/

mutual
inductive TreeSnap where
  | node : String → String → List Perm → TreeKids → TreeSnap
  deriving DecidableEq
inductive TreeKids where
  | nil : TreeKids
  | cons : TreeSnap → TreeKids → TreeKids
  deriving DecidableEq
end

/-- The id of a tree node. -/
def TreeSnap.tid : TreeSnap → String
  | .node i _ _ _ => i

/-- The name of a tree node. -/
def TreeSnap.tname : TreeSnap → String
  | .node _ n _ _ => n

/-- The node's own permission list. -/
def TreeSnap.tperms : TreeSnap → List Perm
  | .node _ _ ps _ => ps

/-- The node's subfolders. -/
def TreeSnap.tkids : TreeSnap → TreeKids
  | .node _ _ _ cs => cs

/-- The `/children` payload a snapshot's node presents: one folder child
item per subtree. -/
def TreeKids.childItems : TreeKids → List ChildItem
  | .nil => []
  | .cons t ts => { id := t.tid, name := t.tname, isFolder := true } :: ts.childItems

mutual
/-- All node ids of a tree, root first. -/
def TreeSnap.idsT : TreeSnap → List String
  | .node i _ _ cs => i :: cs.idsK
/-- All node ids of a forest. -/
def TreeKids.idsK : TreeKids → List String
  | .nil => []
  | .cons t ts => t.idsT ++ ts.idsK
end

mutual
/-- Does the drive snapshot behave like this tree below the given path?
Per node: the permission fetch returns the node's entries, the children
fetch lists exactly its subfolders, the metadata fetch does not raise, and
re-resolving the node's path yields the node's own id. -/
def TreeSnap.agrees (drive : RemoteDrive) : TreeSnap → String → Bool
  | .node i _ ps cs, fpath =>
    (drive.perms i == FetchResult.ok ps) &&
    (drive.children i == FetchResult.ok cs.childItems) &&
    !(drive.info i == FetchResult.netError) &&
    (consistentId drive fpath i == i) &&
    cs.agreesK drive fpath
/-- Forest version of `TreeSnap.agrees`; the path is the parent's path. -/
def TreeKids.agreesK (drive : RemoteDrive) : TreeKids → String → Bool
  | .nil, _ => true
  | .cons t ts, fpath =>
    t.agrees drive (childPath fpath t.tname) && ts.agreesK drive fpath
end

mutual
/-- Does any node of the tree carry an explicit match for the target? -/
def TreeSnap.anyMatchT (tgt : String) : TreeSnap → Bool
  | .node _ _ ps cs => hasExplicitUserPermission tgt ps || cs.anyMatchK tgt
/-- Forest version of `TreeSnap.anyMatchT`. -/
def TreeKids.anyMatchK (tgt : String) : TreeKids → Bool
  | .nil => false
  | .cons t ts => t.anyMatchT tgt || ts.anyMatchK tgt
end

mutual
/-- No strict descendant of an explicitly-matching node matches again:
the condition under which pruning loses nothing. -/
def TreeSnap.topMatchOnly (tgt : String) : TreeSnap → Bool
  | .node _ _ ps cs =>
    if hasExplicitUserPermission tgt ps then !cs.anyMatchK tgt
    else cs.topMatchOnlyK tgt
/-- Forest version of `TreeSnap.topMatchOnly`. -/
def TreeKids.topMatchOnlyK (tgt : String) : TreeKids → Bool
  | .nil => true
  | .cons t ts => t.topMatchOnly tgt && ts.topMatchOnlyK tgt
end

/-! ### Concrete fixtures (permission entries and drive snapshots) -/

/-- An owner entry, as returned for the drive's own owner. -/
def ownerPerm : Perm :=
  { roles := ["owner"], link := none, grantedTo := none,
    grantedToIdentities := [], inheritedFrom := none }

/-- Bob's user object. -/
def bobUser : UserInfo :=
  { email := some "bob@example.com", displayName := some "Bob" }

/-- An explicit direct grant to `bob@example.com`. -/
def bobGrant : Perm :=
  { roles := ["write"], link := none,
    grantedTo := some { user := some bobUser },
    grantedToIdentities := [], inheritedFrom := none }

/-- Alice's user object. -/
def aliceUser : UserInfo :=
  { email := some "alice@example.com", displayName := some "Alice" }

/-- An explicit direct grant to `alice@example.com`. -/
def aliceGrant : Perm :=
  { roles := ["write"], link := none,
    grantedTo := some { user := some aliceUser },
    grantedToIdentities := [], inheritedFrom := none }

/-- A user object with a display name but no e-mail address. -/
def displayOnlyUser : UserInfo :=
  { email := none, displayName := some "Alice Wonder" }

/-- An explicit direct grant whose user has a display name but no e-mail. -/
def displayOnlyGrant : Perm :=
  { roles := ["write"], link := none,
    grantedTo := some { user := some displayOnlyUser },
    grantedToIdentities := [], inheritedFrom := none }

/-- An anonymous view link: link sharing with no resolvable user grantee. -/
def linkPerm : Perm :=
  { roles := ["read"], link := some { type := some "view" },
    grantedTo := none, grantedToIdentities := [], inheritedFrom := none }

/-- A single-folder drive: root `r` carries a direct grant to Bob and has no
subfolders. -/
def dRootBob : RemoteDrive :=
  { perms := fun i => if i == "r" then FetchResult.ok [bobGrant]
      else FetchResult.httpError
    children := fun _ => FetchResult.ok []
    info := fun _ => FetchResult.ok "nm"
    itemPath := fun _ => "Unknown"
    resolvePath := fun _ => FetchResult.httpError
    rootId := FetchResult.ok "r" }

/-- A single-folder drive whose root carries only an anonymous link entry:
sharing is present but no grantee is resolvable. -/
def dLinkOnly : RemoteDrive :=
  { perms := fun i => if i == "r" then FetchResult.ok [linkPerm]
      else FetchResult.httpError
    children := fun _ => FetchResult.ok []
    info := fun _ => FetchResult.ok "nm"
    itemPath := fun _ => "Unknown"
    resolvePath := fun _ => FetchResult.httpError
    rootId := FetchResult.ok "r" }

/-- Root `p` whose permission fetch answers 403, with a child `c` that
carries its own direct grant to Bob. -/
def dSkip403 : RemoteDrive :=
  { perms := fun i =>
      if i == "p" then FetchResult.httpError
      else if i == "c" then FetchResult.ok [bobGrant]
      else FetchResult.httpError
    children := fun i =>
      if i == "p" then FetchResult.ok [{ id := "c", name := "C", isFolder := true }]
      else FetchResult.ok []
    info := fun _ => FetchResult.ok "nm"
    itemPath := fun _ => "Unknown"
    resolvePath := fun _ => FetchResult.httpError
    rootId := FetchResult.ok "p" }

/-- Root `r` whose permission fetch raises (network failure). -/
def dNetPerm : RemoteDrive :=
  { perms := fun _ => FetchResult.netError
    children := fun _ => FetchResult.ok []
    info := fun _ => FetchResult.ok "nm"
    itemPath := fun _ => "Unknown"
    resolvePath := fun _ => FetchResult.httpError
    rootId := FetchResult.ok "r" }

/-- Root `r` (no entries of its own) whose children fetch raises. -/
def dChildNet : RemoteDrive :=
  { perms := fun i => if i == "r" then FetchResult.ok []
      else FetchResult.httpError
    children := fun _ => FetchResult.netError
    info := fun _ => FetchResult.ok "nm"
    itemPath := fun _ => "Unknown"
    resolvePath := fun _ => FetchResult.httpError
    rootId := FetchResult.ok "r" }

/-- A drive `r -> a -> b` where `a` carries an explicit grant to Alice and
`b` carries its *own* explicit grant to Alice as well. -/
def dDeepGrant : RemoteDrive :=
  { perms := fun i =>
      if i == "r" then FetchResult.ok []
      else if i == "a" then FetchResult.ok [aliceGrant]
      else if i == "b" then FetchResult.ok [aliceGrant]
      else FetchResult.httpError
    children := fun i =>
      if i == "r" then FetchResult.ok [{ id := "a", name := "A", isFolder := true }]
      else if i == "a" then FetchResult.ok [{ id := "b", name := "B", isFolder := true }]
      else FetchResult.ok []
    info := fun _ => FetchResult.ok "nm"
    itemPath := fun _ => "Unknown"
    resolvePath := fun _ => FetchResult.httpError
    rootId := FetchResult.ok "r" }

/-- A drive `r -> a -> b` where only `a` carries an explicit grant to Alice
and `b` has no entries of its own. -/
def dTopGrant : RemoteDrive :=
  { perms := fun i =>
      if i == "r" then FetchResult.ok []
      else if i == "a" then FetchResult.ok [aliceGrant]
      else if i == "b" then FetchResult.ok []
      else FetchResult.httpError
    children := fun i =>
      if i == "r" then FetchResult.ok [{ id := "a", name := "A", isFolder := true }]
      else if i == "a" then FetchResult.ok [{ id := "b", name := "B", isFolder := true }]
      else FetchResult.ok []
    info := fun _ => FetchResult.ok "nm"
    itemPath := fun _ => "Unknown"
    resolvePath := fun p => if p == "A" then FetchResult.ok "a"
      else FetchResult.httpError
    rootId := FetchResult.ok "r" }

/-- Root `r` whose only entry grants to a user with a display name but no
e-mail address. -/
def dDisplayOnly : RemoteDrive :=
  { perms := fun i => if i == "r" then FetchResult.ok [displayOnlyGrant]
      else FetchResult.httpError
    children := fun _ => FetchResult.ok []
    info := fun _ => FetchResult.ok "nm"
    itemPath := fun _ => "Unknown"
    resolvePath := fun _ => FetchResult.httpError
    rootId := FetchResult.ok "r" }

/-- A drive agreeing with the tree
`node r (node a [aliceGrant] (node b []))` scanned under the path `R`. -/
def dTreeW : RemoteDrive :=
  { perms := fun i =>
      if i == "r" then FetchResult.ok []
      else if i == "a" then FetchResult.ok [aliceGrant]
      else if i == "b" then FetchResult.ok []
      else FetchResult.httpError
    children := fun i =>
      if i == "r" then FetchResult.ok [{ id := "a", name := "A", isFolder := true }]
      else if i == "a" then FetchResult.ok [{ id := "b", name := "B", isFolder := true }]
      else FetchResult.ok []
    info := fun _ => FetchResult.ok "nm"
    itemPath := fun _ => "Unknown"
    resolvePath := fun p => if p == "R" then FetchResult.ok "r"
      else FetchResult.httpError
    rootId := FetchResult.ok "r" }

/-- The tree snapshot `dTreeW` realizes below the path `R`. -/
def treeW : TreeSnap :=
  TreeSnap.node "r" "R" []
    (TreeKids.cons
      (TreeSnap.node "a" "A" [aliceGrant]
        (TreeKids.cons (TreeSnap.node "b" "B" [] TreeKids.nil) TreeKids.nil))
      TreeKids.nil)

/-- Relation between a pre-state and post-state of the *unfiltered* scan
over a region with the given ids and no explicit match anywhere: the
visited set grows only by region ids, and every newly recorded result is
rejected by the post-pass filter. -/
def SkipRel (drive : RemoteDrive) (u : String) (st S : ScanState)
    (ids : List String) : Prop :=
  (∃ δ, S.checked_folders = st.checked_folders ++ δ ∧ ∀ x ∈ δ, x ∈ ids) ∧
  (∃ new, S.shared_folders = st.shared_folders ++ new ∧
    filter_folders_by_user drive new u = [])

/-- Relation tying one region's effect on the pruned scan (`st1 → S1`) to
its effect on the unfiltered scan (`st2 → S2`): both visited sets grow only
by region ids, and filtering the unfiltered scan's new results yields
exactly the pruned scan's new result ids. -/
def EquivRel (drive : RemoteDrive) (u : String) (st1 S1 st2 S2 : ScanState)
    (ids : List String) : Prop :=
  (∃ δ1, S1.checked_folders = st1.checked_folders ++ δ1 ∧ ∀ x ∈ δ1, x ∈ ids) ∧
  (∃ δ2, S2.checked_folders = st2.checked_folders ++ δ2 ∧ ∀ x ∈ δ2, x ∈ ids) ∧
  (∃ new1 new2, S1.shared_folders = st1.shared_folders ++ new1 ∧
    S2.shared_folders = st2.shared_folders ++ new2 ∧
    resultIds (filter_folders_by_user drive new2 u) = resultIds new1)

/-! ## Properties of the permission classifier -/

lemma analyze_permissions_eq (ps : List Perm) :
    analyze_permissions ps =
      ((ps.foldl analyzeStep (false, false, [])).1,
       (ps.foldl analyzeStep (false, false, [])).2.1,
       ps.length,
       (ps.foldl analyzeStep (false, false, [])).2.2) := by
  unfold analyze_permissions
  rcases ps.foldl analyzeStep (false, false, []) with ⟨hl, hd, su⟩
  rfl

lemma identsFold_snd (l : List IdentityInfo) (b : Bool) (su : List String) :
    (l.foldl (fun (acc : Bool × List String) identity =>
        match identity.user with
        | some u => (true, addUser acc.2 (displayIdentity u))
        | none => acc) (b, su)).2
      = (l.filterMap (fun i => i.user.map displayIdentity)).foldl addUser su := by
  induction l generalizing b su with
  | nil => rfl
  | cons i l ih =>
    cases h : i.user <;> simp [List.filterMap_cons, h, ih]

lemma analyzeStep_users (st : Bool × Bool × List String) (p : Perm) :
    (analyzeStep st p).2.2 = (entryIdentities p).foldl addUser st.2.2 := by
  obtain ⟨b1, b2, su⟩ := st
  obtain ⟨roles, plink, gTo, gIds, inh⟩ := p
  unfold analyzeStep entryIdentities
  dsimp only
  by_cases ho : "owner" ∈ roles
  · simp [ho]
  · simp only [ho, if_false]
    cases gTo with
    | none => simpa using identsFold_snd gIds _ _
    | some gt =>
      obtain ⟨gu⟩ := gt
      cases gu with
      | none => simpa using identsFold_snd gIds _ _
      | some u =>
        simpa [List.foldl_append] using
          identsFold_snd gIds true (addUser su (displayIdentity u))

lemma foldl_analyzeStep_users (ps : List Perm)
    (st : Bool × Bool × List String) :
    (ps.foldl analyzeStep st).2.2 =
      (granteeIdentities ps).foldl addUser st.2.2 := by
  induction ps generalizing st with
  | nil => rfl
  | cons p ps ih =>
    simp [granteeIdentities, List.foldl_append, ih, analyzeStep_users]

lemma analyze_users (ps : List Perm) :
    (analyze_permissions ps).2.2.2 =
      (granteeIdentities ps).foldl addUser [] := by
  rw [analyze_permissions_eq]
  exact foldl_analyzeStep_users ps _

lemma foldl_addUser_eq_aux (l : List String) :
    ∀ seen, l.foldl addUser seen = seen ++ firstSeenDedupAux seen l := by
  induction l with
  | nil => intro seen; simp [firstSeenDedupAux]
  | cons x xs ih =>
    intro seen
    by_cases h : x ∈ seen
    · simp [firstSeenDedupAux, h, addUser, ih]
    · simp [firstSeenDedupAux, h, addUser, ih (seen ++ [x])]

lemma mem_firstSeenDedupAux (l : List String) :
    ∀ seen x, x ∈ firstSeenDedupAux seen l ↔ (x ∈ l ∧ x ∉ seen) := by
  induction l with
  | nil => intro seen x; simp [firstSeenDedupAux]
  | cons y ys ih =>
    intro seen x
    by_cases h : y ∈ seen
    · rw [firstSeenDedupAux, if_pos h, ih]
      constructor
      · rintro ⟨hx, hn⟩; exact ⟨List.mem_cons_of_mem _ hx, hn⟩
      · rintro ⟨hor, hn⟩
        rcases List.mem_cons.mp hor with heq | hx
        · exact absurd (heq ▸ h) hn
        · exact ⟨hx, hn⟩
    · rw [firstSeenDedupAux, if_neg h]
      simp only [List.mem_cons, ih, List.mem_append, List.mem_singleton]
      constructor
      · rintro (heq | ⟨hx, hn⟩)
        · exact ⟨Or.inl heq, heq ▸ h⟩
        · exact ⟨Or.inr hx, fun hs => hn (Or.inl hs)⟩
      · rintro ⟨heq | hx, hn⟩
        · exact Or.inl heq
        · by_cases hxy : x = y
          · exact Or.inl hxy
          · exact Or.inr ⟨hx, by simp [hn, hxy]⟩

lemma nodup_firstSeenDedupAux (l : List String) :
    ∀ seen, (firstSeenDedupAux seen l).Nodup := by
  induction l with
  | nil => intro seen; simp [firstSeenDedupAux]
  | cons y ys ih =>
    intro seen
    by_cases h : y ∈ seen
    · rw [firstSeenDedupAux, if_pos h]; exact ih seen
    · rw [firstSeenDedupAux, if_neg h]
      refine List.nodup_cons.mpr ⟨fun hy => ?_, ih _⟩
      have := (mem_firstSeenDedupAux ys _ y).mp hy
      simp at this

lemma sublist_firstSeenDedupAux (l : List String) :
    ∀ seen, (firstSeenDedupAux seen l).Sublist l := by
  induction l with
  | nil => intro seen; simp [firstSeenDedupAux]
  | cons y ys ih =>
    intro seen
    by_cases h : y ∈ seen
    · rw [firstSeenDedupAux, if_pos h]; exact (ih seen).cons y
    · rw [firstSeenDedupAux, if_neg h]; exact (ih _).cons₂ y

lemma analyze_users_eq_dedup (ps : List Perm) :
    (analyze_permissions ps).2.2.2 = firstSeenDedup (granteeIdentities ps) := by
  rw [analyze_users, firstSeenDedup, foldl_addUser_eq_aux]
  simp

lemma permExplicitMatch_entryIdentities_ne_nil (t : String) (p : Perm)
    (h : permExplicitMatch t p = true) : entryIdentities p ≠ [] := by
  obtain ⟨roles, plink, gTo, gIds, inh⟩ := p
  unfold permExplicitMatch at h
  unfold entryIdentities
  dsimp only at h ⊢
  by_cases ho : "owner" ∈ roles
  · simp [ho] at h
  · simp only [ho, if_false] at h ⊢
    by_cases hi : inh.isSome
    · simp [hi] at h
    · simp only [hi, if_false] at h
      rcases (Bool.or_eq_true _ _).mp h with h1 | h2
      · cases gTo with
        | none => simp at h1
        | some gt =>
          obtain ⟨gu⟩ := gt
          cases gu with
          | none => simp at h1
          | some u => simp
      · rcases List.any_eq_true.mp h2 with ⟨i, himem, hmatch⟩
        obtain ⟨iu⟩ := i
        cases iu with
        | none => simp at hmatch
        | some u =>
          have hmem : displayIdentity u ∈
              gIds.filterMap (fun i => i.user.map displayIdentity) :=
            List.mem_filterMap.mpr ⟨⟨some u⟩, himem, rfl⟩
          intro hc
          rw [List.append_eq_nil] at hc
          exact (List.ne_nil_of_mem hmem) hc.2

lemma mem_granteeIdentities_of_mem {x : String} {p : Perm} {ps : List Perm}
    (hp : p ∈ ps) (hx : x ∈ entryIdentities p) : x ∈ granteeIdentities ps := by
  induction ps with
  | nil => cases hp
  | cons q qs ih =>
    rw [granteeIdentities, List.mem_append]
    rcases List.mem_cons.mp hp with rfl | hmem
    · exact Or.inl hx
    · exact Or.inr (ih hmem)

lemma explicit_match_users_ne_nil {t : String} {ps : List Perm}
    (h : hasExplicitUserPermission t ps = true) :
    (analyze_permissions ps).2.2.2 ≠ [] := by
  rcases List.any_eq_true.mp h with ⟨p, hp, hm⟩
  obtain ⟨x, hx⟩ := List.exists_mem_of_ne_nil (entryIdentities p)
    (permExplicitMatch_entryIdentities_ne_nil t p hm)
  have hxg : x ∈ granteeIdentities ps := mem_granteeIdentities_of_mem hp hx
  rw [analyze_users_eq_dedup, firstSeenDedup]
  intro hc
  have hmem : x ∈ firstSeenDedupAux [] (granteeIdentities ps) :=
    (mem_firstSeenDedupAux _ _ _).mpr ⟨hxg, by simp⟩
  simp [hc] at hmem

lemma foldl_analyzeStep_owner (ps : List Perm)
    (hps : ∀ p ∈ ps, "owner" ∈ p.roles) :
    ∀ st, ps.foldl analyzeStep st = st := by
  induction ps with
  | nil => intro st; rfl
  | cons p qs ih =>
    intro st
    have hp : "owner" ∈ p.roles := hps p (List.mem_cons_self _ _)
    have hstep : analyzeStep st p = st := by unfold analyzeStep; simp [hp]
    rw [List.foldl_cons, hstep]
    exact ih (fun q hq => hps q (List.mem_cons_of_mem _ hq)) st

/-- Claim C6. `analyze_permissions` skips every entry whose role set contains
`"owner"`: such an entry leaves the classification state untouched (first
conjunct), and a permission list consisting solely of owner entries — in
particular the singleton owner list of the claim — classifies to
`hasLink = false`, `hasDirect = false` and an empty grantee list. -/
theorem classify_skips_owner_entries :
    (∀ (st : Bool × Bool × List String) (p : Perm),
      "owner" ∈ p.roles → analyzeStep st p = st) ∧
    (∀ ps : List Perm, (∀ p ∈ ps, "owner" ∈ p.roles) →
      analyze_permissions ps = (false, false, ps.length, [])) := by
  constructor
  · intro st p hp; unfold analyzeStep; simp [hp]
  · intro ps hps
    rw [analyze_permissions_eq, foldl_analyzeStep_owner ps hps]

/-- Witness for C6 at the concrete owner-only list. -/
theorem classify_skips_owner_entries_witness :
    analyze_permissions [ownerPerm] = (false, false, 1, []) :=
  classify_skips_owner_entries.2 [ownerPerm] (by decide)

/-- Claim C10. The count component returned by `analyze_permissions` is the
length of the raw input list — owner and inherited entries included — so an
owner-only singleton reports count 1, not 0. -/
theorem permission_count_is_raw_length :
    (∀ ps : List Perm, (analyze_permissions ps).2.2.1 = ps.length) ∧
    (∀ p : Perm, "owner" ∈ p.roles →
      (analyze_permissions [p]).2.2.1 = 1) := by
  constructor
  · intro ps; rw [analyze_permissions_eq]
  · intro p _; rw [analyze_permissions_eq]; rfl

/-- Witness for C10 at the concrete owner-only list. -/
theorem permission_count_is_raw_length_witness :
    (analyze_permissions [ownerPerm]).2.2.1 = 1 :=
  permission_count_is_raw_length.2 ownerPerm (by decide)

/-- Claim C9. The `shared_users` component of `analyze_permissions` is the
first-seen-order deduplication of the grantee display identities (email if
present, else display name, else `"Unknown"` — that is `displayIdentity`,
extracted per entry by `entryIdentities`): it equals `firstSeenDedup` of the
raw identity sequence, contains no duplicates, is a sublist of that sequence
(so first-seen order is preserved), and has exactly the same members. -/
theorem grantees_dedup_first_seen :
    (∀ ps : List Perm,
      (analyze_permissions ps).2.2.2 = firstSeenDedup (granteeIdentities ps)) ∧
    (∀ ps : List Perm, ((analyze_permissions ps).2.2.2).Nodup) ∧
    (∀ ps : List Perm,
      ((analyze_permissions ps).2.2.2).Sublist (granteeIdentities ps)) ∧
    (∀ (ps : List Perm) (x : String),
      x ∈ (analyze_permissions ps).2.2.2 ↔ x ∈ granteeIdentities ps) := by
  refine ⟨analyze_users_eq_dedup, ?_, ?_, ?_⟩
  · intro ps
    rw [analyze_users_eq_dedup]
    exact nodup_firstSeenDedupAux _ _
  · intro ps
    rw [analyze_users_eq_dedup]
    exact sublist_firstSeenDedupAux _ _
  · intro ps x
    rw [analyze_users_eq_dedup, firstSeenDedup, mem_firstSeenDedupAux]
    simp

/-! ## State lemmas about one node step -/

lemma permCallIds_append (l1 l2 : List ApiCall) :
    permCallIds (l1 ++ l2) = permCallIds l1 ++ permCallIds l2 := by
  unfold permCallIds
  exact List.filterMap_append _ _ _

lemma nodeAfterPerms_checked_calls (drive : RemoteDrive)
    (target : Option String) (fid fpath : String) (st : ScanState) :
    (nodeAfterPerms drive target fid fpath st).1.checked_folders =
        st.checked_folders ∧
      (nodeAfterPerms drive target fid fpath st).1.calls = st.calls ∧
      (nodeAfterPerms drive target fid fpath st).1.errors = st.errors ∨
    (nodeAfterPerms drive target fid fpath st).1 =
        { st with errors := st.errors ++
            [if fpath == "" then fid else fpath] } := by
  unfold nodeAfterPerms
  cases hp : drive.perms fid with
  | netError => left; exact ⟨rfl, rfl, rfl⟩
  | httpError => left; exact ⟨rfl, rfl, rfl⟩
  | ok ps =>
    dsimp only
    split
    · split
      · right; rfl
      · cases hinfo : drive.info fid <;> left <;> exact ⟨rfl, rfl, rfl⟩
    · left; exact ⟨rfl, rfl, rfl⟩

lemma nodeAfterPerms_shared_folders (drive : RemoteDrive)
    (target : Option String) (fid fpath : String) (st : ScanState) :
    (nodeAfterPerms drive target fid fpath st).1.shared_folders =
        st.shared_folders ∨
    ∃ r, (nodeAfterPerms drive target fid fpath st).1.shared_folders =
        st.shared_folders ++ [r] ∧ r.shared_users ≠ [] := by
  unfold nodeAfterPerms
  cases hp : drive.perms fid with
  | netError => left; rfl
  | httpError => left; rfl
  | ok ps =>
    dsimp only
    split
    · rename_i hinc
      split
      · left; rfl
      · rename_i hne
        cases hinfo : drive.info fid with
        | netError => left; rfl
        | httpError =>
          right
          refine ⟨_, rfl, ?_⟩
          simpa [List.isEmpty_iff] using hne
        | ok nm =>
          right
          refine ⟨_, rfl, ?_⟩
          simpa [List.isEmpty_iff] using hne
    · left; rfl

/-! ## The scanner's global invariant: non-empty grantees, visit-once -/

lemma goChildren_pres (P : ScanState → Prop)
    (visit : String → String → ScanState → ScanState)
    (hv : ∀ cid cpath s, P s → P (visit cid cpath s)) (fpath : String) :
    ∀ (cs : List ChildItem) (st : ScanState),
      P st → P (goChildren visit fpath cs st) := by
  intro cs
  induction cs with
  | nil => intro st h; simpa [goChildren] using h
  | cons c rest ih =>
    intro st h
    rw [goChildren]
    cases hf : c.isFolder with
    | false => simpa [hf] using ih st h
    | true => simpa [hf] using ih _ (hv _ _ _ h)

lemma scanInv_nodeAfterPerms (drive : RemoteDrive) (target : Option String)
    (fid fpath : String) (st : ScanState) (h : ScanInv st) :
    ScanInv (nodeAfterPerms drive target fid fpath st).1 := by
  obtain ⟨hres, hnd, hcalls⟩ := h
  rcases nodeAfterPerms_checked_calls drive target fid fpath st with
    ⟨hck, hca, _⟩ | heq
  · refine ⟨?_, hck ▸ hnd, by rw [hca, hck]; exact hcalls⟩
    rcases nodeAfterPerms_shared_folders drive target fid fpath st with
      hsame | ⟨r, hr, hru⟩
    · rw [hsame]; exact hres
    · rw [hr]
      intro x hx
      rcases List.mem_append.mp hx with hx1 | hx2
      · exact hres x hx1
      · rw [List.mem_singleton.mp hx2]; exact hru
  · rw [heq]
    exact ⟨hres, hnd, hcalls⟩

lemma scanInv_checkFolderRec (drive : RemoteDrive) (target : Option String) :
    ∀ (fuel : Nat) (fid fpath : String) (st : ScanState),
      ScanInv st → ScanInv (checkFolderRec drive target fuel fid fpath st) := by
  intro fuel
  induction fuel with
  | zero => intro fid fpath st h; simpa [checkFolderRec] using h
  | succ fuel ih =>
    intro fid fpath st h
    rw [checkFolderRec]
    by_cases hc : fid ∈ st.checked_folders
    · simpa [hc] using h
    · rw [if_neg hc]
      obtain ⟨hres, hnd, hcalls⟩ := h
      have h1 : ScanInv { st with
          checked_folders := st.checked_folders ++ [fid]
          calls := st.calls ++ [ApiCall.permCall fid] } := by
        refine ⟨hres, ?_, ?_⟩
        · simp [List.nodup_append, hnd, hc]
        · rw [permCallIds_append, hcalls]; rfl
      dsimp only
      split
      · rename_i p st2 hnp
        have h2 : ScanInv st2 := by
          have := scanInv_nodeAfterPerms drive target fid fpath _ h1
          rw [hnp] at this
          exact this
        exact h2
      · rename_i p st2 hnp
        have h2 : ScanInv st2 := by
          have := scanInv_nodeAfterPerms drive target fid fpath _ h1
          rwa [hnp] at this
        have h3 : ScanInv { st2 with
            calls := st2.calls ++ [ApiCall.childrenCall fid] } := by
          obtain ⟨h2res, h2nd, h2calls⟩ := h2
          refine ⟨h2res, h2nd, ?_⟩
          rw [permCallIds_append, h2calls]
          simp [permCallIds]
        cases drive.children fid with
        | ok children =>
          exact goChildren_pres ScanInv _ (fun cid cpath s hs => ih cid cpath s hs)
            fpath children _ h3
        | httpError => exact h3
        | netError => exact h3

lemma scanInv_init : ScanInv initScanState :=
  ⟨fun r hr => absurd hr (List.not_mem_nil r), List.nodup_nil, rfl⟩

lemma scanInv_scan (drive : RemoteDrive) (md : Nat) (td u : Option String) :
    ScanInv (scan_shared_folders_recursive drive md td u) := by
  unfold scan_shared_folders_recursive
  cases td with
  | some t =>
    dsimp only
    cases drive.resolvePath t with
    | ok tid => exact scanInv_checkFolderRec drive _ md tid t _ scanInv_init
    | httpError => exact scanInv_init
    | netError => exact scanInv_init
  | none =>
    dsimp only
    cases drive.rootId with
    | ok rid => exact scanInv_checkFolderRec drive _ md rid "" _ scanInv_init
    | httpError => exact scanInv_init
    | netError => exact scanInv_init

/-- Claim C7. Every result the scanner records has a non-empty `shared_users`
list (first conjunct, over any drive and any scan parameters); and a visited
node that qualifies for inclusion but whose classification yields an empty
grantee list is reported on the defect log and *not* appended to the results
(second conjunct: the node step only extends `errors`). -/
theorem results_have_grantees :
    (∀ (drive : RemoteDrive) (md : Nat) (td u : Option String),
      ∀ r ∈ (scan_shared_folders_recursive drive md td u).shared_folders,
        r.shared_users ≠ []) ∧
    (∀ (drive : RemoteDrive) (target : Option String) (fid fpath : String)
        (st : ScanState) (ps : List Perm),
      drive.perms fid = FetchResult.ok ps →
      shouldIncludeFolder target ps = true →
      (analyze_permissions ps).2.2.2 = [] →
      nodeAfterPerms drive target fid fpath st =
        ({ st with errors :=
            st.errors ++ [if fpath == "" then fid else fpath] },
         !(target.isSome && targetExplicit target ps))) := by
  constructor
  · intro drive md td u
    exact (scanInv_scan drive md td u).1
  · intro drive target fid fpath st ps hperm hinc husers
    unfold nodeAfterPerms
    rw [hperm]
    dsimp only
    rw [if_pos hinc]
    rw [if_pos (by simp [List.isEmpty_iff, husers])]

/-- Witness for C7: the defect branch fires on a link-only permission list
(sharing present, no resolvable grantee) and records an error instead of a
result. -/
theorem results_have_grantees_witness :
    nodeAfterPerms dLinkOnly none "r" "" initScanState =
      ({ initScanState with errors :=
          initScanState.errors ++ [if ("" == "") = true then "r" else ""] },
       !(Option.isSome (none : Option String) &&
          targetExplicit none [linkPerm])) :=
  results_have_grantees.2 dLinkOnly none "r" "" initScanState [linkPerm]
    rfl (by decide) (by decide)

/-- Claim C8. Over any remote graph — including ones presenting one folder id
on two traversal paths, or cyclic ones — the scan marks each folder id as
visited at most once (`Nodup`) and the permission fetches it issues are
exactly the visited ids in order, so each folder is classified at most once;
the recursion itself is structurally bounded by the depth budget, so the
traversal always terminates. -/
theorem scan_visits_each_id_at_most_once :
    ∀ (drive : RemoteDrive) (md : Nat) (td u : Option String),
      (scan_shared_folders_recursive drive md td u).checked_folders.Nodup ∧
      permCallIds (scan_shared_folders_recursive drive md td u).calls =
        (scan_shared_folders_recursive drive md td u).checked_folders := by
  intro drive md td u
  exact ⟨(scanInv_scan drive md td u).2.1, (scanInv_scan drive md td u).2.2⟩

/-! ## C3: the depth-0 scan -/

/-- Counterexample to C3 as stated: on a drive whose root is itself shared
(direct grant to Bob — it *does* qualify, as the depth-1 scan shows), a scan
with `maxDepth = 0` visits nothing, classifies nothing (no permission fetch
at all) and returns no result, instead of classifying the root and
returning it. -/
theorem depth_zero_counterexample :
    (scan_shared_folders_recursive dRootBob 0 none none).shared_folders = [] ∧
    (scan_shared_folders_recursive dRootBob 0 none none).checked_folders = [] ∧
    (scan_shared_folders_recursive dRootBob 0 none none).calls = [] ∧
    resultIds (scan_shared_folders_recursive dRootBob 1 none none).shared_folders
      = ["r"] := by
  exact ⟨rfl, rfl, rfl, rfl⟩

/-- Claim C3, amended. `scan(root, maxDepth = 0, ...)` stops before visiting
even the root: the guard `current_depth >= max_depth` fires at depth 0, so
the scan returns the empty state — no node visited, no permission or
child-listing call issued, no result; the root is never classified, whether
or not it qualifies. -/
theorem depth_zero_scans_nothing (drive : RemoteDrive) (td u : Option String) :
    scan_shared_folders_recursive drive 0 td u = initScanState := by
  unfold scan_shared_folders_recursive
  cases td with
  | some t =>
    dsimp only
    cases drive.resolvePath t with
    | ok tid => rfl
    | httpError => rfl
    | netError => rfl
  | none =>
    dsimp only
    cases drive.rootId with
    | ok rid => rfl
    | httpError => rfl
    | netError => rfl

/-! ## C4: failure semantics of one node -/

/-- Counterexample to C4 as stated: on `dSkip403` the root `p`'s permission
fetch fails with a non-200 status (authorization error), yet its subtree is
*not* skipped — the child `c` is still visited and contributes a result. -/
theorem failed_node_subtree_counterexample :
    (scan_shared_folders_recursive dSkip403 2 none none).checked_folders
      = ["p", "c"] ∧
    resultIds (scan_shared_folders_recursive dSkip403 2 none none).shared_folders
      = ["c"] := by
  exact ⟨rfl, rfl⟩

/-- Claim C4, amended. Node-level failure semantics of the scanner, which is
total (it never raises to the caller):
* a *raised* (transient-network) permission fetch aborts that node's `try`
  block — the node is only marked visited and its permission call logged;
  nothing is recorded and its children are never fetched (subtree skipped);
* a permission fetch answering a *non-200 status* (authorization /
  not-found) skips only the classification: the node contributes no result
  but its children are still fetched and traversed;
* a failing children fetch (raised exception shown here) skips only the
  children: the scan returns normally with just that node marked visited
  beyond the prior state, and continues elsewhere. -/
theorem node_failure_semantics :
    (∀ (drive : RemoteDrive) (target : Option String) (fuel : Nat)
        (fid fpath : String) (st : ScanState),
      fid ∉ st.checked_folders →
      drive.perms fid = FetchResult.netError →
      checkFolderRec drive target (fuel + 1) fid fpath st =
        { st with checked_folders := st.checked_folders ++ [fid]
                  calls := st.calls ++ [ApiCall.permCall fid] }) ∧
    (∀ (drive : RemoteDrive) (target : Option String) (fuel : Nat)
        (fid fpath : String) (st : ScanState) (children : List ChildItem),
      fid ∉ st.checked_folders →
      drive.perms fid = FetchResult.httpError →
      drive.children fid = FetchResult.ok children →
      checkFolderRec drive target (fuel + 1) fid fpath st =
        goChildren
          (fun cid cpath s => checkFolderRec drive target fuel cid cpath s)
          fpath children
          { st with checked_folders := st.checked_folders ++ [fid]
                    calls := st.calls ++
                      [ApiCall.permCall fid, ApiCall.childrenCall fid] }) ∧
    (∀ (drive : RemoteDrive) (target : Option String) (fuel : Nat)
        (fid fpath : String) (st : ScanState),
      fid ∉ st.checked_folders →
      drive.children fid = FetchResult.netError →
      (checkFolderRec drive target (fuel + 1) fid fpath st).checked_folders =
        st.checked_folders ++ [fid]) := by
  refine ⟨?_, ?_, ?_⟩
  · intro drive target fuel fid fpath st hc hperm
    rw [checkFolderRec, if_neg hc]
    dsimp only
    unfold nodeAfterPerms
    rw [hperm]
  · intro drive target fuel fid fpath st children hc hperm hch
    rw [checkFolderRec, if_neg hc]
    dsimp only
    unfold nodeAfterPerms
    rw [hperm]
    dsimp only
    rw [hch]
    dsimp only
    congr 1
    simp
  · intro drive target fuel fid fpath st hc hch
    rw [checkFolderRec, if_neg hc]
    dsimp only
    split
    · rename_i p st2 hnp
      have := nodeAfterPerms_checked_calls drive target fid fpath
        { st with checked_folders := st.checked_folders ++ [fid]
                  calls := st.calls ++ [ApiCall.permCall fid] }
      rw [hnp] at this
      rcases this with ⟨hck, _, _⟩ | heq
      · exact hck
      · exact congrArg ScanState.checked_folders heq
    · rename_i p st2 hnp
      have := nodeAfterPerms_checked_calls drive target fid fpath
        { st with checked_folders := st.checked_folders ++ [fid]
                  calls := st.calls ++ [ApiCall.permCall fid] }
      rw [hnp] at this
      rw [hch]
      rcases this with ⟨hck, _, _⟩ | heq
      · exact hck
      · exact congrArg ScanState.checked_folders heq

/-- A fuel-0 recursive call does nothing, so iterating it over children is
the identity. -/
theorem goChildren_fuel_zero (drive : RemoteDrive) (target : Option String)
    (fpath : String) (cs : List ChildItem) (st : ScanState) :
    goChildren (fun cid cpath s => checkFolderRec drive target 0 cid cpath s)
      fpath cs st = st := by
  induction cs generalizing st with
  | nil => rfl
  | cons c rest ih =>
    rw [goChildren]
    cases hf : c.isFolder
    · simpa [hf] using ih st
    · simpa [hf] using ih st

/-- Projection form of one visit step at positive depth budget: mark the
node, run the permission phase, then either stop (pruned or aborted) or run
the children phase. -/
theorem checkFolderRec_step (drive : RemoteDrive) (target : Option String)
    (fuel : Nat) (fid fpath : String) (st : ScanState)
    (hc : fid ∉ st.checked_folders) :
    checkFolderRec drive target (fuel + 1) fid fpath st =
      (let st1 : ScanState :=
        { st with checked_folders := st.checked_folders ++ [fid]
                  calls := st.calls ++ [ApiCall.permCall fid] }
       let np := nodeAfterPerms drive target fid fpath st1
       if np.2 then
         (let st3 : ScanState :=
            { np.1 with calls := np.1.calls ++ [ApiCall.childrenCall fid] }
          match drive.children fid with
          | FetchResult.ok children =>
            goChildren
              (fun cid cpath s => checkFolderRec drive target fuel cid cpath s)
              fpath children st3
          | _ => st3)
       else np.1) := by
  rw [checkFolderRec, if_neg hc]
  dsimp only
  split
  · rename_i p st2 hnp
    rw [hnp]
    rfl
  · rename_i p st2 hnp
    rw [hnp]
    rfl

/-- Explicit form of the permission phase when the permission fetch
succeeds. -/
theorem nodeAfterPerms_ok (drive : RemoteDrive) (target : Option String)
    (fid fpath : String) (st : ScanState) (ps : List Perm)
    (hperm : drive.perms fid = FetchResult.ok ps) :
    nodeAfterPerms drive target fid fpath st =
      (if shouldIncludeFolder target ps then
        (if (analyze_permissions ps).2.2.2.isEmpty then
          ({ st with errors :=
              st.errors ++ [if fpath == "" then fid else fpath] },
           !(target.isSome && targetExplicit target ps))
        else
          (let fpath2 := if fpath == "" then drive.itemPath fid else fpath
           match drive.info fid with
           | FetchResult.netError => (st, false)
           | infoRes =>
             ({ st with shared_folders := st.shared_folders ++
                 [{ path := fpath2
                    name := match infoRes with
                      | FetchResult.ok nm => nm
                      | _ => "Unknown"
                    id := if fpath2 == "" then fid
                          else consistentId drive fpath2 fid
                    symbol := if (analyze_permissions ps).1 then "🔗" else "👥"
                    share_type := if (analyze_permissions ps).1
                      then "Link sharing" else "Direct permissions"
                    has_link_sharing := (analyze_permissions ps).1
                    has_direct_sharing := (analyze_permissions ps).2.1
                    permission_count := (analyze_permissions ps).2.2.1
                    shared_users := (analyze_permissions ps).2.2.2 }] },
              !(target.isSome && targetExplicit target ps))))
      else (st, !(target.isSome && targetExplicit target ps))) := by
  unfold nodeAfterPerms
  rw [hperm]

/-- Witness for C4: the three failure branches exercised on concrete
drives. -/
theorem node_failure_semantics_witness :
    (checkFolderRec dNetPerm none 3 "r" "" initScanState =
      { initScanState with checked_folders := ["r"]
                           calls := [ApiCall.permCall "r"] }) ∧
    (checkFolderRec dSkip403 none 3 "p" "" initScanState =
      goChildren
        (fun cid cpath s => checkFolderRec dSkip403 none 2 cid cpath s)
        "" [{ id := "c", name := "C", isFolder := true }]
        { initScanState with checked_folders := ["p"]
                             calls := [ApiCall.permCall "p",
                                       ApiCall.childrenCall "p"] }) ∧
    ((checkFolderRec dChildNet none 3 "r" "" initScanState).checked_folders =
      ["r"]) := by
  refine ⟨?_, ?_, ?_⟩
  · have := node_failure_semantics.1 dNetPerm none 2 "r" "" initScanState
      (by decide) rfl
    simpa using this
  · have := node_failure_semantics.2.1 dSkip403 none 2 "p" "" initScanState
      [{ id := "c", name := "C", isFolder := true }] (by decide) rfl rfl
    simpa using this
  · have := node_failure_semantics.2.2 dChildNet none 2 "r" "" initScanState
      (by decide) rfl
    simpa using this

/-! ## C5: what "matching the target grantee" means for inclusion -/

/-- Counterexample to C5 as stated: on `dDisplayOnly` the root is visited
and its only entry is non-owner, explicit, and its grantee's *display
identity* ("Alice Wonder") contains the target "alice" case-insensitively —
so the claim says the node is included — yet the scan returns nothing: the
code matches on the e-mail field alone (defaulting to the empty string),
never on the display-name fallback. -/
theorem display_identity_match_counterexample :
    (scan_shared_folders_recursive dDisplayOnly 1 none (some "alice")).checked_folders
      = ["r"] ∧
    (scan_shared_folders_recursive dDisplayOnly 1 none (some "alice")).shared_folders
      = [] ∧
    specGranteeDisplayMatch "alice" displayOnlyGrant = true ∧
    displayOnlyGrant.inheritedFrom = none ∧
    "owner" ∉ displayOnlyGrant.roles := by
  refine ⟨rfl, rfl, rfl, rfl, by decide⟩

/-- Claim C5, amended. When a target grantee is set, a visited node is
included in the results iff its own permission list has an entry that is
non-owner, explicit (no `inheritedFrom`), and grants to a user whose
*e-mail field* — lowercased, taken as the empty string when absent, with no
display-name or "Unknown" fallback — contains the lowercased target as a
substring (`permExplicitMatch`). Stated for a one-node scan rooted at a
resolvable directory. -/
theorem targeted_inclusion_iff_email_match
    (drive : RemoteDrive) (td u rid nm : String) (ps : List Perm)
    (hu : u ≠ "") (htd : td ≠ "")
    (hres : drive.resolvePath td = FetchResult.ok rid)
    (hperm : drive.perms rid = FetchResult.ok ps)
    (hinfo : drive.info rid = FetchResult.ok nm) :
    (scan_shared_folders_recursive drive 1 (some td) (some u)).checked_folders
      = [rid] ∧
    ((scan_shared_folders_recursive drive 1 (some td) (some u)).shared_folders
        ≠ [] ↔
      hasExplicitUserPermission (strLower u) ps = true) := by
  have hu' : (u == "") = false := by
    simpa using hu
  have htd' : (td == "") = false := by
    simpa using htd
  unfold scan_shared_folders_recursive
  dsimp only
  rw [hu']
  simp only [Bool.false_eq_true, if_false]
  rw [hres]
  dsimp only
  rw [show (1 : Nat) = 0 + 1 from rfl,
    checkFolderRec_step drive _ 0 rid td initScanState (by simp [initScanState])]
  dsimp only
  rw [nodeAfterPerms_ok drive _ rid td _ ps hperm]
  dsimp only
  rw [show shouldIncludeFolder (some (strLower u)) ps
      = hasExplicitUserPermission (strLower u) ps from rfl,
    show targetExplicit (some (strLower u)) ps
      = hasExplicitUserPermission (strLower u) ps from rfl]
  by_cases hex : hasExplicitUserPermission (strLower u) ps = true
  · have hne : (analyze_permissions ps).2.2.2.isEmpty = false := by
      simp [List.isEmpty_iff, explicit_match_users_ne_nil hex]
    rw [hex]
    simp only [if_true, hne, Bool.false_eq_true, if_false, htd']
    rw [hinfo]
    simp [initScanState, hex]
  · have hex' : hasExplicitUserPermission (strLower u) ps = false := by
      simpa using hex
    rw [hex']
    simp only [Bool.false_eq_true, if_false, Option.isSome_some, Bool.true_and,
      Bool.not_false, if_true]
    cases drive.children rid <;>
      simp [goChildren_fuel_zero, initScanState]

/-- Witness for C5 (amended) on the concrete drive `dTopGrant`, scanning
the single folder `a` resolved from the path `A` for the target `Alice`. -/
theorem targeted_inclusion_iff_email_match_witness :
    (scan_shared_folders_recursive dTopGrant 1 (some "A") (some "Alice")).checked_folders
      = ["a"] ∧
    ((scan_shared_folders_recursive dTopGrant 1 (some "A") (some "Alice")).shared_folders
        ≠ [] ↔
      hasExplicitUserPermission (strLower "Alice") [aliceGrant] = true) :=
  targeted_inclusion_iff_email_match dTopGrant "A" "Alice" "a" "nm" [aliceGrant]
    (by decide) (by decide) rfl rfl rfl

/-! ## C1: pruning stops below the topmost explicit match -/

/-- Claim C1. For any drive presenting the shape `root -> A -> B` — the root
carries no explicit match for the (non-empty) target `u`, `A` carries an
explicit match, and `B` has no entries of its own — the targeted scan at
`maxDepth = 5` returns exactly `A`: the only result id is `A`'s, the
visited set is `{root, A}` (so `B` is never visited), and no children
listing is ever requested for `A` — the scanner prunes below the match. -/
theorem pruning_returns_topmost_only
    (drive : RemoteDrive) (u r a b an bn anm : String)
    (rps aps : List Perm)
    (hu : u ≠ "")
    (har : a ≠ r) (hbr : b ≠ r) (hba : b ≠ a)
    (han : an ≠ "")
    (hroot : drive.rootId = FetchResult.ok r)
    (hrperm : drive.perms r = FetchResult.ok rps)
    (hrmatch : hasExplicitUserPermission (strLower u) rps = false)
    (hrkids : drive.children r =
      FetchResult.ok [{ id := a, name := an, isFolder := true }])
    (haperm : drive.perms a = FetchResult.ok aps)
    (hamatch : hasExplicitUserPermission (strLower u) aps = true)
    (hainfo : drive.info a = FetchResult.ok anm)
    (hares : drive.resolvePath an = FetchResult.ok a)
    (hakids : drive.children a =
      FetchResult.ok [{ id := b, name := bn, isFolder := true }])
    (hbperm : drive.perms b = FetchResult.ok []) :
    resultIds (scan_shared_folders_recursive drive 5 none (some u)).shared_folders
      = [a] ∧
    (scan_shared_folders_recursive drive 5 none (some u)).checked_folders
      = [r, a] ∧
    b ∉ (scan_shared_folders_recursive drive 5 none (some u)).checked_folders ∧
    ApiCall.childrenCall a ∉
      (scan_shared_folders_recursive drive 5 none (some u)).calls := by
  have hu' : (u == "") = false := by simpa using hu
  have han' : (an == "") = false := by simpa using han
  unfold scan_shared_folders_recursive
  dsimp only
  rw [hu']
  simp only [Bool.false_eq_true, if_false]
  rw [hroot]
  dsimp only
  rw [show (5 : Nat) = 4 + 1 from rfl,
    checkFolderRec_step drive _ 4 r "" initScanState (by simp [initScanState])]
  dsimp only
  rw [nodeAfterPerms_ok drive _ r "" _ rps hrperm]
  dsimp only
  rw [show shouldIncludeFolder (some (strLower u)) rps
      = hasExplicitUserPermission (strLower u) rps from rfl,
    show targetExplicit (some (strLower u)) rps
      = hasExplicitUserPermission (strLower u) rps from rfl,
    hrmatch]
  simp only [Bool.false_eq_true, if_false, Option.isSome_some, Bool.and_false,
    Bool.not_false, if_true]
  rw [hrkids]
  dsimp only
  rw [goChildren]
  dsimp only
  rw [goChildren]
  rw [show childPath "" an = an from rfl]
  rw [show (4 : Nat) = 3 + 1 from rfl,
    checkFolderRec_step drive _ 3 a an _ (by simp [initScanState, har])]
  dsimp only
  rw [nodeAfterPerms_ok drive _ a an _ aps haperm]
  dsimp only
  rw [show shouldIncludeFolder (some (strLower u)) aps
      = hasExplicitUserPermission (strLower u) aps from rfl,
    show targetExplicit (some (strLower u)) aps
      = hasExplicitUserPermission (strLower u) aps from rfl,
    hamatch]
  have hne : (analyze_permissions aps).2.2.2.isEmpty = false := by
    simp [List.isEmpty_iff, explicit_match_users_ne_nil hamatch]
  simp only [if_true, hne, Bool.false_eq_true, if_false, han']
  rw [hainfo]
  dsimp only
  rw [show consistentId drive an a = a by unfold consistentId; rw [hares]]
  simp only [Option.isSome_some, Bool.and_true, Bool.not_true, if_false]
  refine ⟨rfl, rfl, ?_, ?_⟩
  · simp [initScanState, hbr, hba]
  · simp [initScanState, har]

/-- Witness for C1 on the concrete drive `dTopGrant`
(`r -> a -> b`, explicit Alice grant on `a` only). -/
theorem pruning_returns_topmost_only_witness :
    resultIds (scan_shared_folders_recursive dTopGrant 5 none (some "Alice")).shared_folders
      = ["a"] ∧
    (scan_shared_folders_recursive dTopGrant 5 none (some "Alice")).checked_folders
      = ["r", "a"] ∧
    "b" ∉ (scan_shared_folders_recursive dTopGrant 5 none (some "Alice")).checked_folders ∧
    ApiCall.childrenCall "a" ∉
      (scan_shared_folders_recursive dTopGrant 5 none (some "Alice")).calls :=
  pruning_returns_topmost_only dTopGrant "Alice" "r" "a" "b" "A" "B" "nm"
    [] [aliceGrant]
    (by decide) (by decide) (by decide) (by decide) (by decide)
    rfl rfl rfl rfl rfl (by decide) rfl rfl rfl rfl

/-! ## C2: prune-while-walking versus collect-then-filter -/

/-- Counterexample to C2 as stated: on `dDeepGrant` (`r -> a -> b`, where
`b` carries its *own* explicit grant to Alice below the explicitly-granted
`a`), the pruned targeted scan returns `{a}` only, while the unfiltered
scan followed by `filter_folders_by_user` returns `{a, b}` — the two
strategies do not produce equivalent grantee-set results on every fixed
tree snapshot. -/
theorem strategies_disagree_counterexample :
    resultIds (scan_shared_folders_recursive dDeepGrant 5 none (some "alice")).shared_folders
      = ["a"] ∧
    resultIds (filter_folders_by_user dDeepGrant
        (scan_shared_folders_recursive dDeepGrant 5 none none).shared_folders
        "alice")
      = ["a", "b"] := by
  exact ⟨rfl, rfl⟩

/-- A child's path is never the empty string when the parent path is
non-empty. -/
lemma childPath_ne_empty {fpath : String} (n : String) (h : fpath ≠ "") :
    childPath fpath n ≠ "" := by
  unfold childPath
  have h' : (fpath == "") = false := by simpa using h
  rw [h']
  simp only [Bool.false_eq_true, if_false]
  intro hc
  have hlen := congrArg String.length hc
  simp [String.length_append] at hlen
  exact absurd hlen.1.2 (by decide)

/-- Monotonicity of the `has_direct_sharing` accumulator through the
`grantedToIdentities` loop, and the fact that an identity with a user sets
it. -/
lemma identsFold_fst (l : List IdentityInfo) (b : Bool) (su : List String) :
    ((l.foldl (fun (acc : Bool × List String) identity =>
        match identity.user with
        | some u => (true, addUser acc.2 (displayIdentity u))
        | none => acc) (b, su)).1 = true ↔
      (b = true ∨ l.any (fun i => i.user.isSome) = true)) := by
  induction l generalizing b su with
  | nil => simp
  | cons i l ih =>
    cases h : i.user with
    | none => simp [h, ih]
    | some v => simp [h, ih]

lemma analyze_hasDirect_of_match {t : String} {ps : List Perm}
    (h : hasExplicitUserPermission t ps = true) :
    (analyze_permissions ps).2.1 = true := by
  rcases List.any_eq_true.mp h with ⟨p, hp, hm⟩
  have hset : ∀ st : Bool × Bool × List String,
      (analyzeStep st p).2.1 = true := by
    intro st
    obtain ⟨roles, plink, gTo, gIds, inh⟩ := p
    unfold permExplicitMatch at hm
    unfold analyzeStep
    dsimp only at hm ⊢
    by_cases ho : "owner" ∈ roles
    · simp [ho] at hm
    · simp only [ho, if_false] at hm ⊢
      by_cases hi : inh.isSome
      · simp [hi] at hm
      · simp only [hi, if_false] at hm
        rcases (Bool.or_eq_true _ _).mp hm with h1 | h2
        · cases gTo with
          | none => simp at h1
          | some gt =>
            obtain ⟨gu⟩ := gt
            cases gu with
            | none => simp at h1
            | some v =>
              rw [identsFold_fst]
              left; rfl
        · rcases List.any_eq_true.mp h2 with ⟨i, himem, hiu⟩
          obtain ⟨iu⟩ := i
          cases iu with
          | none => simp at hiu
          | some v =>
            cases gTo with
            | none =>
              rw [identsFold_fst]
              right
              exact List.any_eq_true.mpr ⟨⟨some v⟩, himem, rfl⟩
            | some gt =>
              obtain ⟨gu⟩ := gt
              cases gu with
              | none =>
                rw [identsFold_fst]
                right
                exact List.any_eq_true.mpr ⟨⟨some v⟩, himem, rfl⟩
              | some w =>
                rw [identsFold_fst]
                left; rfl
  have hmono : ∀ (qs : List Perm) (st : Bool × Bool × List String),
      st.2.1 = true → (qs.foldl analyzeStep st).2.1 = true := by
    intro qs
    induction qs with
    | nil => intro st h; exact h
    | cons q qs ih =>
      intro st hst
      rw [List.foldl_cons]
      refine ih _ ?_
      obtain ⟨roles, plink, gTo, gIds, inh⟩ := q
      unfold analyzeStep
      dsimp only
      by_cases ho : "owner" ∈ roles
      · simpa [ho] using hst
      · simp only [ho, if_false]
        cases gTo with
        | none =>
          rw [identsFold_fst]
          left; exact hst
        | some gt =>
          obtain ⟨gu⟩ := gt
          cases gu with
          | none =>
            rw [identsFold_fst]
            left; exact hst
          | some v =>
            rw [identsFold_fst]
            left; rfl
  have hgen : ∀ (qs : List Perm) (st : Bool × Bool × List String),
      p ∈ qs → (qs.foldl analyzeStep st).2.1 = true := by
    intro qs
    induction qs with
    | nil => intro st hc; cases hc
    | cons q qs ih =>
      intro st hq
      rw [List.foldl_cons]
      rcases List.mem_cons.mp hq with rfl | hmem
      · exact hmono qs _ (hset st)
      · exact ih _ hmem
  rw [analyze_permissions_eq]
  exact hgen ps _ hp

/-- Full characterization of the permission phase at a node whose
permission fetch succeeds, whose path is non-empty and consistently
re-resolvable, and whose metadata fetch does not raise: the continue-flag
is exactly "not pruned", the visited/call/error state is untouched except
possibly the error log, and the results either stay unchanged (not
included, or included with no resolvable grantee) or grow by exactly one
record carrying the node's id. -/
lemma nodeAfterPerms_spec (drive : RemoteDrive) (target : Option String)
    (fid fpath : String) (st : ScanState) (ps : List Perm)
    (hperm : drive.perms fid = FetchResult.ok ps)
    (hfp : fpath ≠ "")
    (hcons : consistentId drive fpath fid = fid)
    (hinfo : drive.info fid ≠ FetchResult.netError) :
    ((nodeAfterPerms drive target fid fpath st).2 =
      !(target.isSome && targetExplicit target ps)) ∧
    ((nodeAfterPerms drive target fid fpath st).1.checked_folders =
      st.checked_folders) ∧
    ((nodeAfterPerms drive target fid fpath st).1.calls = st.calls) ∧
    (((nodeAfterPerms drive target fid fpath st).1.shared_folders =
        st.shared_folders ∧ shouldIncludeFolder target ps = false) ∨
     ((nodeAfterPerms drive target fid fpath st).1.shared_folders =
        st.shared_folders ∧ shouldIncludeFolder target ps = true ∧
        (analyze_permissions ps).2.2.2 = []) ∨
     (∃ r : ScanResult,
        (nodeAfterPerms drive target fid fpath st).1.shared_folders =
          st.shared_folders ++ [r] ∧ r.id = fid ∧
        shouldIncludeFolder target ps = true)) := by
  have hfp' : (fpath == "") = false := by simpa using hfp
  rw [nodeAfterPerms_ok drive target fid fpath st ps hperm]
  dsimp only
  by_cases hinc : shouldIncludeFolder target ps = true
  · rw [if_pos hinc]
    by_cases hemp : (analyze_permissions ps).2.2.2.isEmpty = true
    · rw [if_pos hemp]
      refine ⟨rfl, rfl, rfl, Or.inr (Or.inl ⟨rfl, hinc, ?_⟩)⟩
      simpa [List.isEmpty_iff] using hemp
    · rw [if_neg hemp]
      rw [hfp']
      simp only [Bool.false_eq_true, if_false]
      cases hinfo2 : drive.info fid with
      | netError => exact absurd hinfo2 hinfo
      | httpError =>
        refine ⟨trivial, trivial, trivial, Or.inr (Or.inr ⟨_, rfl, ?_, hinc⟩)⟩
        rw [hfp']
        simp [hcons]
      | ok nm =>
        refine ⟨trivial, trivial, trivial, Or.inr (Or.inr ⟨_, rfl, ?_, hinc⟩)⟩
        rw [hfp']
        simp [hcons]
  · rw [if_neg hinc]
    exact ⟨rfl, rfl, rfl, Or.inl ⟨rfl, by simpa using hinc⟩⟩

/-- Unfolding of the agreement predicate at one node. -/
lemma agrees_node_iff (drive : RemoteDrive) (i n : String) (ps : List Perm)
    (cs : TreeKids) (fpath : String) :
    (TreeSnap.node i n ps cs).agrees drive fpath = true ↔
      (drive.perms i = FetchResult.ok ps ∧
       drive.children i = FetchResult.ok cs.childItems ∧
       drive.info i ≠ FetchResult.netError ∧
       consistentId drive fpath i = i ∧
       cs.agreesK drive fpath = true) := by
  rw [TreeSnap.agrees]
  simp [Bool.and_eq_true, beq_iff_eq, and_assoc]

/-- The post-pass filter distributes over concatenation. -/
lemma filter_users_append (drive : RemoteDrive) (u : String)
    (l1 l2 : List ScanResult) :
    filter_folders_by_user drive (l1 ++ l2) u =
      filter_folders_by_user drive l1 u ++ filter_folders_by_user drive l2 u := by
  unfold filter_folders_by_user
  exact List.filter_append _ _

/-- A candidate whose own permission list has an explicit match is kept by
the post-pass filter. -/
lemma filter_users_singleton_pos (drive : RemoteDrive) (u : String)
    (r : ScanResult) (ps : List Perm)
    (hid : drive.perms r.id = FetchResult.ok ps)
    (hm : hasExplicitUserPermission (strLower u) ps = true) :
    filter_folders_by_user drive [r] u = [r] := by
  unfold filter_folders_by_user
  dsimp only
  rw [List.filter_cons, hid]
  dsimp only
  rw [hm]
  rfl

/-- A candidate whose own permission list has no explicit match is dropped
by the post-pass filter. -/
lemma filter_users_singleton_neg (drive : RemoteDrive) (u : String)
    (r : ScanResult) (ps : List Perm)
    (hid : drive.perms r.id = FetchResult.ok ps)
    (hm : hasExplicitUserPermission (strLower u) ps = false) :
    filter_folders_by_user drive [r] u = [] := by
  unfold filter_folders_by_user
  dsimp only
  rw [List.filter_cons, hid]
  dsimp only
  rw [hm]
  rfl

lemma resultIds_append (l1 l2 : List ScanResult) :
    resultIds (l1 ++ l2) = resultIds l1 ++ resultIds l2 := by
  unfold resultIds
  exact List.map_append _ _ _

/-- Reflexivity: `SkipRel` holds at an unchanged state. -/
lemma SkipRel_refl (drive : RemoteDrive) (u : String) (st : ScanState)
    (ids : List String) : SkipRel drive u st st ids := by
  refine ⟨⟨[], by simp, by simp⟩, ⟨[], by simp, rfl⟩⟩

/-- Transitivity: `SkipRel` composes along successive regions. -/
lemma SkipRel_trans {drive : RemoteDrive} {u : String} {st S T : ScanState}
    {ids1 ids2 : List String}
    (h1 : SkipRel drive u st S ids1) (h2 : SkipRel drive u S T ids2) :
    SkipRel drive u st T (ids1 ++ ids2) := by
  obtain ⟨⟨d1, hc1, hm1⟩, ⟨n1, hr1, hf1⟩⟩ := h1
  obtain ⟨⟨d2, hc2, hm2⟩, ⟨n2, hr2, hf2⟩⟩ := h2
  refine ⟨⟨d1 ++ d2, ?_, ?_⟩, ⟨n1 ++ n2, ?_, ?_⟩⟩
  · rw [hc2, hc1, List.append_assoc]
  · intro x hx
    rcases List.mem_append.mp hx with h | h
    · exact List.mem_append.mpr (Or.inl (hm1 x h))
    · exact List.mem_append.mpr (Or.inr (hm2 x h))
  · rw [hr2, hr1, List.append_assoc]
  · rw [filter_users_append, hf1, hf2]
    rfl

/-- Weaken the id bound of a `SkipRel`. -/
lemma SkipRel_mono {drive : RemoteDrive} {u : String} {st S : ScanState}
    {ids ids' : List String}
    (h : SkipRel drive u st S ids) (hsub : ∀ x ∈ ids, x ∈ ids') :
    SkipRel drive u st S ids' := by
  obtain ⟨⟨d, hc, hm⟩, hrest⟩ := h
  exact ⟨⟨d, hc, fun x hx => hsub x (hm x hx)⟩, hrest⟩

mutual

/-- Running the *unfiltered* scan over a region with no explicit match for
the target grows the visited set only by region ids and records only
results the post-pass filter rejects. -/
theorem skip_region_node (drive : RemoteDrive) (u : String) :
    ∀ (t : TreeSnap) (fuel : Nat) (fpath : String) (st : ScanState),
      t.agrees drive fpath = true →
      fpath ≠ "" →
      t.anyMatchT (strLower u) = false →
      SkipRel drive u st
        (checkFolderRec drive none fuel t.tid fpath st) t.idsT
  | TreeSnap.node i n ps cs, fuel, fpath, st => by
    intro hag hfp hnm
    have hmt : hasExplicitUserPermission (strLower u) ps = false := by
      cases h : hasExplicitUserPermission (strLower u) ps
      · rfl
      · rw [TreeSnap.anyMatchT, h] at hnm; simp at hnm
    have hmk : cs.anyMatchK (strLower u) = false := by
      cases h : cs.anyMatchK (strLower u)
      · rfl
      · rw [TreeSnap.anyMatchT, h] at hnm; simp at hnm
    rw [agrees_node_iff] at hag
    obtain ⟨hperm, hkids, hinfo, hcons, hagk⟩ := hag
    show SkipRel drive u st (checkFolderRec drive none fuel i fpath st)
      (i :: cs.idsK)
    cases fuel with
    | zero => exact SkipRel_refl drive u st _
    | succ fuel =>
      by_cases hmem : i ∈ st.checked_folders
      · rw [checkFolderRec, if_pos hmem]
        exact SkipRel_refl drive u st _
      · rw [checkFolderRec_step drive none fuel i fpath st hmem]
        dsimp only
        set np := nodeAfterPerms drive none i fpath
          { st with checked_folders := st.checked_folders ++ [i]
                    calls := st.calls ++ [ApiCall.permCall i] } with hnpdef
        obtain ⟨hnp2, hnpck, hnpca, hnpres⟩ :=
          nodeAfterPerms_spec drive none i fpath
            { st with checked_folders := st.checked_folders ++ [i]
                      calls := st.calls ++ [ApiCall.permCall i] }
            ps hperm hfp hcons hinfo
        rw [← hnpdef] at hnp2 hnpck hnpca hnpres
        have hcond : np.2 = true := by rw [hnp2]; rfl
        rw [if_pos hcond]
        rw [hkids]
        dsimp only
        show SkipRel drive u st _ ([i] ++ cs.idsK)
        refine SkipRel_trans ?_
          (skip_region_forest drive u cs fuel fpath _ hagk hfp hmk)
        constructor
        · refine ⟨[i], ?_, by simp⟩
          show np.1.checked_folders = st.checked_folders ++ [i]
          rw [hnpck]
        · rcases hnpres with ⟨hres, _⟩ | ⟨hres, _, _⟩ | ⟨r, hres, hrid, _⟩
          · refine ⟨[], ?_, rfl⟩
            show np.1.shared_folders = st.shared_folders ++ []
            rw [hres]
            simp
          · refine ⟨[], ?_, rfl⟩
            show np.1.shared_folders = st.shared_folders ++ []
            rw [hres]
            simp
          · refine ⟨[r], ?_, ?_⟩
            · show np.1.shared_folders = st.shared_folders ++ [r]
              rw [hres]
            · refine filter_users_singleton_neg drive u r ps ?_ hmt
              rw [hrid]
              exact hperm

/-- Forest version of `skip_region_node`, following the child loop. -/
theorem skip_region_forest (drive : RemoteDrive) (u : String) :
    ∀ (cs : TreeKids) (fuel : Nat) (fpath : String) (st : ScanState),
      cs.agreesK drive fpath = true →
      fpath ≠ "" →
      cs.anyMatchK (strLower u) = false →
      SkipRel drive u st
        (goChildren
          (fun cid cpath s => checkFolderRec drive none fuel cid cpath s)
          fpath cs.childItems st) cs.idsK
  | TreeKids.nil, fuel, fpath, st => by
    intro _ _ _
    exact SkipRel_refl drive u st _
  | TreeKids.cons t ts, fuel, fpath, st => by
    intro hag hfp hnm
    have hm1 : t.anyMatchT (strLower u) = false := by
      cases h : t.anyMatchT (strLower u)
      · rfl
      · rw [TreeKids.anyMatchK, h] at hnm; simp at hnm
    have hm2 : ts.anyMatchK (strLower u) = false := by
      cases h : ts.anyMatchK (strLower u)
      · rfl
      · rw [TreeKids.anyMatchK, h] at hnm; simp at hnm
    rw [TreeKids.agreesK, Bool.and_eq_true] at hag
    obtain ⟨hag1, hag2⟩ := hag
    show SkipRel drive u st _ (t.idsT ++ ts.idsK)
    rw [TreeKids.childItems, goChildren]
    dsimp only
    exact SkipRel_trans
      (skip_region_node drive u t fuel (childPath fpath t.tname) st hag1
        (childPath_ne_empty t.tname hfp) hm1)
      (skip_region_forest drive u ts fuel fpath _ hag2 hfp hm2)

end

/-- Reflexivity: `EquivRel` holds at unchanged states. -/
lemma EquivRel_refl (drive : RemoteDrive) (u : String) (st1 st2 : ScanState)
    (ids : List String) : EquivRel drive u st1 st1 st2 st2 ids := by
  refine ⟨⟨[], by simp, by simp⟩, ⟨[], by simp, by simp⟩,
    ⟨[], [], by simp, by simp, rfl⟩⟩

/-- Transitivity: `EquivRel` composes along successive regions. -/
lemma EquivRel_trans {drive : RemoteDrive} {u : String}
    {st1 S1 T1 st2 S2 T2 : ScanState} {ids1 ids2 : List String}
    (h1 : EquivRel drive u st1 S1 st2 S2 ids1)
    (h2 : EquivRel drive u S1 T1 S2 T2 ids2) :
    EquivRel drive u st1 T1 st2 T2 (ids1 ++ ids2) := by
  obtain ⟨⟨d1, hc1, hm1⟩, ⟨e1, hk1, hn1⟩, ⟨a1, b1, hra1, hrb1, hf1⟩⟩ := h1
  obtain ⟨⟨d2, hc2, hm2⟩, ⟨e2, hk2, hn2⟩, ⟨a2, b2, hra2, hrb2, hf2⟩⟩ := h2
  refine ⟨⟨d1 ++ d2, ?_, ?_⟩, ⟨e1 ++ e2, ?_, ?_⟩,
    ⟨a1 ++ a2, b1 ++ b2, ?_, ?_, ?_⟩⟩
  · rw [hc2, hc1, List.append_assoc]
  · intro x hx
    rcases List.mem_append.mp hx with h | h
    · exact List.mem_append.mpr (Or.inl (hm1 x h))
    · exact List.mem_append.mpr (Or.inr (hm2 x h))
  · rw [hk2, hk1, List.append_assoc]
  · intro x hx
    rcases List.mem_append.mp hx with h | h
    · exact List.mem_append.mpr (Or.inl (hn1 x h))
    · exact List.mem_append.mpr (Or.inr (hn2 x h))
  · rw [hra2, hra1, List.append_assoc]
  · rw [hrb2, hrb1, List.append_assoc]
  · rw [filter_users_append, resultIds_append, resultIds_append, hf1, hf2]

mutual

/-- Over a duplicate-free, fully-agreeing region in which no explicit match
sits strictly below another, the pruned targeted walk and the unfiltered
walk post-filtered for the same target produce the same result ids. -/
theorem equiv_region_node (drive : RemoteDrive) (u : String) :
    ∀ (t : TreeSnap) (fuel : Nat) (fpath : String) (st1 st2 : ScanState),
      t.agrees drive fpath = true →
      fpath ≠ "" →
      t.idsT.Nodup →
      (∀ x ∈ t.idsT, x ∉ st1.checked_folders) →
      (∀ x ∈ t.idsT, x ∉ st2.checked_folders) →
      t.topMatchOnly (strLower u) = true →
      EquivRel drive u
        st1 (checkFolderRec drive (some (strLower u)) fuel t.tid fpath st1)
        st2 (checkFolderRec drive none fuel t.tid fpath st2)
        t.idsT
  | TreeSnap.node i n ps cs, fuel, fpath, st1, st2 => by
    intro hag hfp hnodup hd1 hd2 htop
    rw [agrees_node_iff] at hag
    obtain ⟨hperm, hkids, hinfo, hcons, hagk⟩ := hag
    rw [show (TreeSnap.node i n ps cs).idsT = i :: cs.idsK from rfl]
      at hnodup hd1 hd2
    rw [TreeSnap.topMatchOnly] at htop
    show EquivRel drive u st1
      (checkFolderRec drive (some (strLower u)) fuel i fpath st1) st2
      (checkFolderRec drive none fuel i fpath st2) (i :: cs.idsK)
    cases fuel with
    | zero => exact EquivRel_refl drive u st1 st2 _
    | succ fuel =>
      have hmem1 : i ∉ st1.checked_folders := hd1 i (List.mem_cons_self _ _)
      have hmem2 : i ∉ st2.checked_folders := hd2 i (List.mem_cons_self _ _)
      rw [checkFolderRec_step drive (some (strLower u)) fuel i fpath st1 hmem1,
        checkFolderRec_step drive none fuel i fpath st2 hmem2]
      dsimp only
      set np1 := nodeAfterPerms drive (some (strLower u)) i fpath
        { st1 with checked_folders := st1.checked_folders ++ [i]
                   calls := st1.calls ++ [ApiCall.permCall i] } with hnp1def
      set np2 := nodeAfterPerms drive none i fpath
        { st2 with checked_folders := st2.checked_folders ++ [i]
                   calls := st2.calls ++ [ApiCall.permCall i] } with hnp2def
      obtain ⟨h1b, h1ck, h1ca, h1res⟩ :=
        nodeAfterPerms_spec drive (some (strLower u)) i fpath
          { st1 with checked_folders := st1.checked_folders ++ [i]
                     calls := st1.calls ++ [ApiCall.permCall i] }
          ps hperm hfp hcons hinfo
      obtain ⟨h2b, h2ck, h2ca, h2res⟩ :=
        nodeAfterPerms_spec drive none i fpath
          { st2 with checked_folders := st2.checked_folders ++ [i]
                     calls := st2.calls ++ [ApiCall.permCall i] }
          ps hperm hfp hcons hinfo
      rw [← hnp1def] at h1b h1ck h1ca h1res
      rw [← hnp2def] at h2b h2ck h2ca h2res
      have hcond2 : np2.2 = true := by rw [h2b]; rfl
      rw [if_pos hcond2, hkids]
      dsimp only
      by_cases hx : hasExplicitUserPermission (strLower u) ps = true
      · -- the node itself carries the explicit match: prune on the left,
        -- walk a matchless forest on the right
        have hmk : cs.anyMatchK (strLower u) = false := by
          rw [if_pos hx] at htop
          cases h : cs.anyMatchK (strLower u)
          · rfl
          · rw [h] at htop; simp at htop
        have hcond1 : np1.2 = false := by
          rw [h1b, show targetExplicit (some (strLower u)) ps
            = hasExplicitUserPermission (strLower u) ps from rfl, hx]
          rfl
        rw [hcond1]
        simp only [Bool.false_eq_true, if_false]
        rcases h1res with ⟨_, hinc1⟩ | ⟨_, _, husers⟩ | ⟨r1, hres1, hrid1, _⟩
        · rw [show shouldIncludeFolder (some (strLower u)) ps
            = hasExplicitUserPermission (strLower u) ps from rfl, hx] at hinc1
          cases hinc1
        · exact absurd husers (explicit_match_users_ne_nil hx)
        · rcases h2res with ⟨_, hinc2⟩ | ⟨_, _, husers⟩ | ⟨r2, hres2, hrid2, _⟩
          · rw [show shouldIncludeFolder none ps
              = ((analyze_permissions ps).1 || (analyze_permissions ps).2.1)
              from rfl] at hinc2
            rw [analyze_hasDirect_of_match hx] at hinc2
            simp at hinc2
          · exact absurd husers (explicit_match_users_ne_nil hx)
          · obtain ⟨⟨δk, hTck, hδk⟩, ⟨newk, hTres, hfk⟩⟩ :=
              skip_region_forest drive u cs fuel fpath
                { np2.1 with calls := np2.1.calls ++ [ApiCall.childrenCall i] }
                hagk hfp hmk
            refine ⟨⟨[i], ?_, by simp⟩, ⟨i :: δk, ?_, ?_⟩,
              ⟨[r1], r2 :: newk, ?_, ?_, ?_⟩⟩
            · show np1.1.checked_folders = st1.checked_folders ++ [i]
              rw [h1ck]
            · rw [hTck]
              show np2.1.checked_folders ++ δk
                = st2.checked_folders ++ (i :: δk)
              rw [h2ck]
              simp
            · intro x hx'
              rcases List.mem_cons.mp hx' with rfl | hmemk
              · exact List.mem_cons_self _ _
              · exact List.mem_cons_of_mem _ (hδk x hmemk)
            · show np1.1.shared_folders = st1.shared_folders ++ [r1]
              rw [hres1]
            · rw [hTres]
              show np2.1.shared_folders ++ newk
                = st2.shared_folders ++ (r2 :: newk)
              rw [hres2]
              simp
            · rw [show (r2 :: newk) = [r2] ++ newk from rfl,
                filter_users_append, hfk,
                filter_users_singleton_pos drive u r2 ps (by rw [hrid2]; exact hperm) hx]
              rw [resultIds_append]
              show resultIds [r2] ++ resultIds [] = resultIds [r1]
              show [r2.id] ++ ([] : List String) = [r1.id]
              rw [hrid1, hrid2]
              rfl
      · -- no match at this node: both walks descend into the forest
        have hx' : hasExplicitUserPermission (strLower u) ps = false := by
          simpa using hx
        have htk : cs.topMatchOnlyK (strLower u) = true := by
          rwa [if_neg (by simp [hx'])] at htop
        have hcond1 : np1.2 = true := by
          rw [h1b, show targetExplicit (some (strLower u)) ps
            = hasExplicitUserPermission (strLower u) ps from rfl, hx']
          rfl
        rw [if_pos hcond1]
        have hd1k : ∀ x ∈ cs.idsK,
            x ∉ ({ np1.1 with
              calls := np1.1.calls ++ [ApiCall.childrenCall i] }).checked_folders := by
          intro x hmemk
          show x ∉ np1.1.checked_folders
          rw [h1ck]
          show x ∉ st1.checked_folders ++ [i]
          have hxi : x ≠ i := by
            intro hcontra
            exact (List.nodup_cons.mp hnodup).1 (hcontra ▸ hmemk)
          simp [hd1 x (List.mem_cons_of_mem _ hmemk), hxi]
        have hd2k : ∀ x ∈ cs.idsK,
            x ∉ ({ np2.1 with
              calls := np2.1.calls ++ [ApiCall.childrenCall i] }).checked_folders := by
          intro x hmemk
          show x ∉ np2.1.checked_folders
          rw [h2ck]
          show x ∉ st2.checked_folders ++ [i]
          have hxi : x ≠ i := by
            intro hcontra
            exact (List.nodup_cons.mp hnodup).1 (hcontra ▸ hmemk)
          simp [hd2 x (List.mem_cons_of_mem _ hmemk), hxi]
        have hE := equiv_region_forest drive u cs fuel fpath
          { np1.1 with calls := np1.1.calls ++ [ApiCall.childrenCall i] }
          { np2.1 with calls := np2.1.calls ++ [ApiCall.childrenCall i] }
          hagk hfp (List.nodup_cons.mp hnodup).2 hd1k hd2k htk
        obtain ⟨⟨δ1, hT1c, hδ1⟩, ⟨δ2, hT2c, hδ2⟩,
          ⟨n1k, n2k, hT1r, hT2r, hfke⟩⟩ := hE
        rcases h1res with ⟨hres1, _⟩ | ⟨_, hinc1, _⟩ | ⟨r1, _, _, hinc1⟩
        · rcases h2res with ⟨hres2, _⟩ | ⟨hres2, _, _⟩ | ⟨r2, hres2, hrid2, _⟩
          · refine ⟨⟨i :: δ1, ?_, ?_⟩, ⟨i :: δ2, ?_, ?_⟩,
              ⟨n1k, n2k, ?_, ?_, hfke⟩⟩
            · rw [hT1c]
              show np1.1.checked_folders ++ δ1
                = st1.checked_folders ++ (i :: δ1)
              rw [h1ck]; simp
            · intro x hx'
              rcases List.mem_cons.mp hx' with rfl | hmemk
              · exact List.mem_cons_self _ _
              · exact List.mem_cons_of_mem _ (hδ1 x hmemk)
            · rw [hT2c]
              show np2.1.checked_folders ++ δ2
                = st2.checked_folders ++ (i :: δ2)
              rw [h2ck]; simp
            · intro x hx'
              rcases List.mem_cons.mp hx' with rfl | hmemk
              · exact List.mem_cons_self _ _
              · exact List.mem_cons_of_mem _ (hδ2 x hmemk)
            · rw [hT1r]
              show np1.1.shared_folders ++ n1k
                = st1.shared_folders ++ n1k
              rw [hres1]
            · rw [hT2r]
              show np2.1.shared_folders ++ n2k
                = st2.shared_folders ++ n2k
              rw [hres2]
          · refine ⟨⟨i :: δ1, ?_, ?_⟩, ⟨i :: δ2, ?_, ?_⟩,
              ⟨n1k, n2k, ?_, ?_, hfke⟩⟩
            · rw [hT1c]
              show np1.1.checked_folders ++ δ1
                = st1.checked_folders ++ (i :: δ1)
              rw [h1ck]; simp
            · intro x hx'
              rcases List.mem_cons.mp hx' with rfl | hmemk
              · exact List.mem_cons_self _ _
              · exact List.mem_cons_of_mem _ (hδ1 x hmemk)
            · rw [hT2c]
              show np2.1.checked_folders ++ δ2
                = st2.checked_folders ++ (i :: δ2)
              rw [h2ck]; simp
            · intro x hx'
              rcases List.mem_cons.mp hx' with rfl | hmemk
              · exact List.mem_cons_self _ _
              · exact List.mem_cons_of_mem _ (hδ2 x hmemk)
            · rw [hT1r]
              show np1.1.shared_folders ++ n1k
                = st1.shared_folders ++ n1k
              rw [hres1]
            · rw [hT2r]
              show np2.1.shared_folders ++ n2k
                = st2.shared_folders ++ n2k
              rw [hres2]
          · refine ⟨⟨i :: δ1, ?_, ?_⟩, ⟨i :: δ2, ?_, ?_⟩,
              ⟨n1k, r2 :: n2k, ?_, ?_, ?_⟩⟩
            · rw [hT1c]
              show np1.1.checked_folders ++ δ1
                = st1.checked_folders ++ (i :: δ1)
              rw [h1ck]; simp
            · intro x hx'
              rcases List.mem_cons.mp hx' with rfl | hmemk
              · exact List.mem_cons_self _ _
              · exact List.mem_cons_of_mem _ (hδ1 x hmemk)
            · rw [hT2c]
              show np2.1.checked_folders ++ δ2
                = st2.checked_folders ++ (i :: δ2)
              rw [h2ck]; simp
            · intro x hx'
              rcases List.mem_cons.mp hx' with rfl | hmemk
              · exact List.mem_cons_self _ _
              · exact List.mem_cons_of_mem _ (hδ2 x hmemk)
            · rw [hT1r]
              show np1.1.shared_folders ++ n1k
                = st1.shared_folders ++ n1k
              rw [hres1]
            · rw [hT2r]
              show np2.1.shared_folders ++ n2k
                = st2.shared_folders ++ (r2 :: n2k)
              rw [hres2]
              simp
            · rw [show (r2 :: n2k) = [r2] ++ n2k from rfl,
                filter_users_append,
                filter_users_singleton_neg drive u r2 ps (by rw [hrid2]; exact hperm) hx',
                resultIds_append]
              simpa using hfke
        · rw [show shouldIncludeFolder (some (strLower u)) ps
            = hasExplicitUserPermission (strLower u) ps from rfl, hx'] at hinc1
          cases hinc1
        · rw [show shouldIncludeFolder (some (strLower u)) ps
            = hasExplicitUserPermission (strLower u) ps from rfl, hx'] at hinc1
          cases hinc1

/-- Forest version of `equiv_region_node`. -/
theorem equiv_region_forest (drive : RemoteDrive) (u : String) :
    ∀ (cs : TreeKids) (fuel : Nat) (fpath : String) (st1 st2 : ScanState),
      cs.agreesK drive fpath = true →
      fpath ≠ "" →
      cs.idsK.Nodup →
      (∀ x ∈ cs.idsK, x ∉ st1.checked_folders) →
      (∀ x ∈ cs.idsK, x ∉ st2.checked_folders) →
      cs.topMatchOnlyK (strLower u) = true →
      EquivRel drive u
        st1 (goChildren
          (fun cid cpath s =>
            checkFolderRec drive (some (strLower u)) fuel cid cpath s)
          fpath cs.childItems st1)
        st2 (goChildren
          (fun cid cpath s => checkFolderRec drive none fuel cid cpath s)
          fpath cs.childItems st2)
        cs.idsK
  | TreeKids.nil, fuel, fpath, st1, st2 => by
    intro _ _ _ _ _ _
    exact EquivRel_refl drive u st1 st2 _
  | TreeKids.cons t ts, fuel, fpath, st1, st2 => by
    intro hag hfp hnodup hd1 hd2 htop
    rw [TreeKids.agreesK, Bool.and_eq_true] at hag
    obtain ⟨hag1, hag2⟩ := hag
    rw [TreeKids.topMatchOnlyK, Bool.and_eq_true] at htop
    obtain ⟨ht1, ht2⟩ := htop
    rw [show (TreeKids.cons t ts).idsK = t.idsT ++ ts.idsK from rfl]
      at hnodup hd1 hd2
    obtain ⟨hn1, hn2, hdisj⟩ := List.nodup_append.mp hnodup
    show EquivRel drive u st1 _ st2 _ (t.idsT ++ ts.idsK)
    rw [TreeKids.childItems, goChildren, goChildren]
    dsimp only
    have hE1 := equiv_region_node drive u t fuel (childPath fpath t.tname)
      st1 st2 hag1 (childPath_ne_empty t.tname hfp) hn1
      (fun x hx => hd1 x (List.mem_append.mpr (Or.inl hx)))
      (fun x hx => hd2 x (List.mem_append.mpr (Or.inl hx)))
      ht1
    obtain ⟨δ1, hS1c, hδ1⟩ := hE1.1
    obtain ⟨δ2, hS2c, hδ2⟩ := hE1.2.1
    have hd1' : ∀ x ∈ ts.idsK,
        x ∉ (checkFolderRec drive (some (strLower u)) fuel t.tid
          (childPath fpath t.tname) st1).checked_folders := by
      intro x hmemk
      rw [hS1c]
      intro hcontra
      rcases List.mem_append.mp hcontra with h | h
      · exact hd1 x (List.mem_append.mpr (Or.inr hmemk)) h
      · exact hdisj (hδ1 x h) hmemk
    have hd2' : ∀ x ∈ ts.idsK,
        x ∉ (checkFolderRec drive none fuel t.tid
          (childPath fpath t.tname) st2).checked_folders := by
      intro x hmemk
      rw [hS2c]
      intro hcontra
      rcases List.mem_append.mp hcontra with h | h
      · exact hd2 x (List.mem_append.mpr (Or.inr hmemk)) h
      · exact hdisj (hδ2 x h) hmemk
    have hE2 := equiv_region_forest drive u ts fuel fpath _ _
      hag2 hfp hn2 hd1' hd2' ht2
    exact EquivRel_trans hE1 hE2

end

/-- Claim C2, amended. For a fixed snapshot whose scanned region is a finite
folder tree with pairwise-distinct ids, consistent path re-resolution, no
fetch failures inside the region, and in which no strict descendant of an
explicitly-matching node itself carries an explicit match for the target,
the prune-while-walking strategy and the collect-then-filter strategy
return the same sequence of folder ids — at every depth bound. -/
theorem strategies_equivalent_on_clean_trees
    (drive : RemoteDrive) (u td : String) (t : TreeSnap) (md : Nat)
    (hu : u ≠ "") (htd : td ≠ "")
    (hres : drive.resolvePath td = FetchResult.ok t.tid)
    (hagree : t.agrees drive td = true)
    (hnodup : t.idsT.Nodup)
    (htop : t.topMatchOnly (strLower u) = true) :
    resultIds (filter_folders_by_user drive
        (scan_shared_folders_recursive drive md (some td) none).shared_folders
        u)
      = resultIds
          (scan_shared_folders_recursive drive md (some td) (some u)).shared_folders := by
  have hu' : (u == "") = false := by simpa using hu
  unfold scan_shared_folders_recursive
  dsimp only
  rw [hu']
  simp only [Bool.false_eq_true, if_false]
  rw [hres]
  dsimp only
  have hE := equiv_region_node drive u t md td initScanState initScanState
    hagree htd hnodup
    (by intro x _; simp [initScanState])
    (by intro x _; simp [initScanState]) htop
  obtain ⟨_, _, ⟨n1, n2, hr1, hr2, hf⟩⟩ := hE
  rw [hr1, hr2]
  simpa [initScanState] using hf

/-- Witness for C2 (amended) on the concrete tree `treeW` realized by
`dTreeW`. -/
theorem strategies_equivalent_on_clean_trees_witness :
    resultIds (filter_folders_by_user dTreeW
        (scan_shared_folders_recursive dTreeW 5 (some "R") none).shared_folders
        "Alice")
      = resultIds
          (scan_shared_folders_recursive dTreeW 5 (some "R") (some "Alice")).shared_folders :=
  strategies_equivalent_on_clean_trees dTreeW "Alice" "R" treeW 5
    (by decide) (by decide) rfl (by decide) (by decide) (by decide)

end ACLScanner
